import Mathlib

/-!
Verification of the ffetch request-orchestration engine.

This development shallowly embeds the core of `src/client.ts`,
`src/retry.ts`, `src/should-retry.ts` and the `CircuitBreaker` of
`src/error.ts` (the variant with `recordResult`, used by the client), and
proves or refutes the behavioural claims of the design document.

Modelling conventions:
* JS numbers that hold timestamps or counters are `Nat`; `Date.now()` is an
  explicit parameter at every point the source reads the clock.
* Thrown JS values are the inductive `JSError`; the typed error classes of
  `error.ts` are constructors carrying their `message` and optional `cause`.
* `AbortSignal` states are booleans sampled at the points the source reads
  `.aborted`: once before an attempt (`sigPre`) and once in the attempt's
  `catch` handler (`sigPost`).
* The model follows the modern-runtime branch of the source
  (`AbortSignal.any` and `throwIfAborted` available).
* Async control flow is sequentialised: an attempt's outcome is an input
  (`TransportResult`), and the per-call bookkeeping that interleaves across
  awaits (dedupe map, pending registry) is modelled separately as a small
  event-trace machine whose atomic steps are the synchronous blocks of the
  source.
-/

namespace FFetch

/-- An HTTP response; only the fields the engine inspects. -/
structure Response where
  status : Nat
  statusText : String
deriving Repr, DecidableEq

/-- Thrown JS values seen by the engine: raw platform errors
(`DOMException` aborts, `TypeError`s, anything else) and the typed error
classes of `error.ts`.  Each typed class carries its `message` and, where the
source sets it, a `cause`.  `HttpError` is constructed with the response as
its second argument (client.ts line 291).  A raw `DOMException('Aborted',
'AbortError')` is `domAbort`; `generic none` models a thrown value without a
string `message` (e.g. `undefined`). -/
inductive JSError where
  | domAbort : JSError
  | typeError (msg : String) : JSError
  | generic (msg : Option String) : JSError
  | timeoutError (msg : String) (cause : Option JSError) : JSError
  | abortError (msg : String) (cause : Option JSError) : JSError
  | circuitOpenError (msg : String) : JSError
  | retryLimitError (msg : String) (cause : Option JSError) : JSError
  | networkError (msg : String) (cause : Option JSError) : JSError
  | httpError (msg : String) (response : Response) : JSError
deriving Repr

/-- `err instanceof RetryLimitError`. -/
def JSError.isRetryLimit : JSError → Bool
  | .retryLimitError _ _ => true
  | _ => false

/-- The `message` property of a thrown value, when it is a string
(client.ts lines 332-337). -/
def JSError.messageOf : JSError → Option String
  | .domAbort => some "Aborted"
  | .typeError m => some m
  | .generic m => m
  | .timeoutError m _ => some m
  | .abortError m _ => some m
  | .circuitOpenError m => some m
  | .retryLimitError m _ => some m
  | .networkError m _ => some m
  | .httpError m _ => some m

/-- A transport (`fetchHandler`) only ever throws platform errors, never the
engine's own typed classes.  Results satisfying this are the realistic ones;
several theorems assume it. -/
def rawResult : JSError → Bool
  | .domAbort => true
  | .typeError _ => true
  | .generic _ => true
  | _ => false

/-! ### Circuit breaker (`CircuitBreaker` of error.ts, lines 103-196) -/

/-- Constructor arguments of `CircuitBreaker` (`threshold`, `resetTimeout`). -/
structure BreakerCfg where
  threshold : Nat
  reset : Nat
deriving Repr, DecidableEq

/-- Which breaker hooks were installed via `setHooks`. -/
structure BreakerHooks where
  hasOpen : Bool
  hasClose : Bool
deriving Repr, DecidableEq

/-- Mutable state of a `CircuitBreaker` instance.  `lastOpenReq` /
`lastSuccessReq` model whether `lastOpenRequest` / `lastSuccessRequest`
currently hold a request object. -/
structure BreakerSt where
  failures : Nat
  nextAttempt : Nat
  isOpen : Bool
  lastOpenReq : Bool
  lastSuccessReq : Bool
deriving Repr, DecidableEq

/-- Field initialisers of `CircuitBreaker`. -/
def BreakerSt.init : BreakerSt :=
  { failures := 0, nextAttempt := 0, isOpen := false,
    lastOpenReq := false, lastSuccessReq := false }

/-- `onSuccess` (error.ts lines 174-184).  Returns the new state and whether
the `onCircuitClose` hook fired. -/
def onSuccess (hooks : BreakerHooks) (b : BreakerSt) : BreakerSt × Bool :=
  if b.isOpen then
    ({ b with failures := 0, isOpen := false, lastSuccessReq := false },
      hooks.hasClose && b.lastSuccessReq)
  else
    ({ b with failures := 0, lastSuccessReq := false }, false)

/-- `onFailure` (error.ts lines 186-195).  `now` is `Date.now()`.  Returns the
new state and whether the `onCircuitOpen` hook fired. -/
def onFailure (cfg : BreakerCfg) (hooks : BreakerHooks) (now : Nat)
    (b : BreakerSt) : BreakerSt × Bool :=
  let f := b.failures + 1
  if cfg.threshold ≤ f then
    ({ b with failures := f, nextAttempt := now + cfg.reset, isOpen := true },
      hooks.hasOpen && b.lastOpenReq)
  else
    ({ b with failures := f }, false)

/-- First guard of `recordResult`: a thrown error counts as failure unless it
is a `RetryLimitError`. -/
def errQualifies (error : Option JSError) : Bool :=
  match error with
  | some e => !e.isRetryLimit
  | none => false

/-- Second guard of `recordResult`: an HTTP 5xx or 429 response counts as
failure. -/
def respQualifies (response : Option Response) : Bool :=
  match response with
  | some r => decide (500 ≤ r.status) || decide (r.status = 429)
  | none => false

/-- Result of one `recordResult` call. -/
structure RecordOut where
  st : BreakerSt
  failed : Bool
  openFired : Bool
  closeFired : Bool
deriving Repr

/-- `recordResult(response?, error?, req)` (error.ts lines 128-145); the
client always passes the request, so the branches set `lastOpenReq` /
`lastSuccessReq` to `true`. -/
def recordResult (cfg : BreakerCfg) (hooks : BreakerHooks) (now : Nat)
    (b : BreakerSt) (response : Option Response) (error : Option JSError) :
    RecordOut :=
  if errQualifies error then
    let p := onFailure cfg hooks now { b with lastOpenReq := true }
    { st := p.1, failed := true, openFired := p.2, closeFired := false }
  else if respQualifies response then
    let p := onFailure cfg hooks now { b with lastOpenReq := true }
    { st := p.1, failed := true, openFired := p.2, closeFired := false }
  else
    let p := onSuccess hooks { b with lastSuccessReq := true }
    { st := p.1, failed := false, openFired := false, closeFired := p.2 }

/-- The `circuitOpen` getter of the client (client.ts lines 415-420):
`breaker ? breaker.open : false`. -/
def circuitOpen (bcfg : Option BreakerCfg) (b : BreakerSt) : Bool :=
  match bcfg with
  | some _ => b.isOpen
  | none => false

/-! ### Signals and the per-attempt environment -/

/-- Aborted-state of the three source signals at one observation point:
`userSignal?.aborted`, `timeoutSignal?.aborted`, and the request's own
(`transformedSignal`) state.  An absent signal is modelled as one that never
aborts. -/
structure SigState where
  user : Bool
  timeout : Bool
  transformed : Bool
deriving Repr, DecidableEq

/-- The combined signal (`AbortSignal.any` over the pushed signals, client.ts
lines 160-178) is aborted as soon as any input is. -/
def SigState.combined (s : SigState) : Bool :=
  s.user || s.timeout || s.transformed

/-- Outcome of awaiting one `handler(reqWithSignal)` invocation. -/
inductive TransportResult where
  | ok (r : Response)
  | err (e : JSError)
deriving Repr

/-- The transport respects `rawResult`: it only throws platform errors. -/
def TransportResult.raw : TransportResult → Bool
  | .ok _ => true
  | .err e => rawResult e

/-- Whether `needle` occurs at the start of `hay` (character lists). -/
def startsWithChars : List Char → List Char → Bool
  | _, [] => true
  | [], _ :: _ => false
  | a :: as, b :: bs => a = b && startsWithChars as bs

/-- Whether `needle` occurs anywhere inside `hay` (character lists). -/
def containsChars (hay needle : List Char) : Bool :=
  match hay with
  | [] => startsWithChars [] needle
  | _ :: t => startsWithChars hay needle || containsChars t needle

/-- The case-insensitive network-failure message test of client.ts lines
264-268: `/NetworkError|network error|failed to fetch|lost connection|…/i`
(the last alternative is subsumed by the first). -/
def networkMsgTest (msg : String) : Bool :=
  let m := msg.toLower.toList
  containsChars m "networkerror".toList ||
    containsChars m "network error".toList ||
    containsChars m "failed to fetch".toList ||
    containsChars m "lost connection".toList

/-- Environment of one iteration of the retry loop: the clock value used by
any `recordResult` in it, the signal states sampled at the pre-attempt checks
(`sigPre`) and in the attempt's catch handler (`sigPost`), and what awaiting
the transport yields if it is reached. -/
structure AttemptEnv where
  now : Nat
  sigPre : SigState
  result : TransportResult
  sigPost : SigState
deriving Repr

/-- Counters of observable events during one call.  Hook counters count the
source's hook call sites being reached (i.e. firings when the hook is
installed); `breakerOpenFires`/`breakerCloseFires` are the breaker-internal
notifications, `onCircuitOpenFires` the client-level hook of client.ts line
349; `qualifyingFailures` counts `recordResult` calls that returned true. -/
structure Trace where
  transportCalls : Nat := 0
  onRetryFires : Nat := 0
  retriesScheduled : Nat := 0
  onTimeoutFires : Nat := 0
  onAbortFires : Nat := 0
  onErrorFires : Nat := 0
  onCompleteFires : Nat := 0
  afterFires : Nat := 0
  beforeFires : Nat := 0
  onCircuitOpenFires : Nat := 0
  breakerOpenFires : Nat := 0
  breakerCloseFires : Nat := 0
  qualifyingFailures : Nat := 0
deriving Repr, DecidableEq

/-- Merge the firing flags of a `recordResult` into the trace. -/
def Trace.record (tr : Trace) (out : RecordOut) : Trace :=
  { tr with
    qualifyingFailures := tr.qualifyingFailures + (if out.failed then 1 else 0),
    breakerOpenFires := tr.breakerOpenFires + (if out.openFired then 1 else 0),
    breakerCloseFires := tr.breakerCloseFires + (if out.closeFired then 1 else 0) }

/-- Result of one iteration of the retry-loop body (the async closure passed
to `retry`, client.ts lines 206-273). -/
structure AttemptOut where
  result : Except JSError Response
  breaker : BreakerSt
  lastResponse : Option Response
  trace : Trace

/-- One execution of the closure passed to `retry` (client.ts lines 206-273):
pre-attempt signal checks, transport invocation, breaker recording, and error
classification.  Follows the modern-runtime branch in which
`combinedSignal.throwIfAborted` exists and rethrows the raw abort reason. -/
def doAttempt (bcfg : Option BreakerCfg) (bhooks : BreakerHooks)
    (env : AttemptEnv) (b : BreakerSt) (lastResponse : Option Response)
    (tr : Trace) : AttemptOut :=
  if env.sigPre.user then
    { result := .error (.abortError "Request was aborted by user" none),
      breaker := b, lastResponse,
      trace := { tr with onAbortFires := tr.onAbortFires + 1 } }
  else if env.sigPre.timeout then
    { result := .error (.timeoutError "signal timed out" none),
      breaker := b, lastResponse,
      trace := { tr with onTimeoutFires := tr.onTimeoutFires + 1 } }
  else if env.sigPre.combined then
    -- combinedSignal.throwIfAborted(): the raw DOMException abort reason
    { result := .error .domAbort, breaker := b, lastResponse, trace := tr }
  else
    let tr := { tr with transportCalls := tr.transportCalls + 1 }
    match env.result with
    | .ok r =>
      match bcfg with
      | some cfg =>
        if 500 ≤ r.status ∨ r.status = 429 then
          let out := recordResult cfg bhooks env.now b (some r) none
          { result := .ok r, breaker := out.st, lastResponse := some r,
            trace := tr.record out }
        else
          { result := .ok r, breaker := b, lastResponse := some r, trace := tr }
      | none =>
        { result := .ok r, breaker := b, lastResponse := some r, trace := tr }
    | .err e =>
      let (b, tr) :=
        match bcfg with
        | some cfg =>
          let out := recordResult cfg bhooks env.now b none (some e)
          (out.st, tr.record out)
        | none => (b, tr)
      match e with
      | .domAbort =>
        if env.sigPost.timeout ∧ ¬env.sigPost.user then
          { result := .error (.timeoutError "signal timed out" (some .domAbort)),
            breaker := b, lastResponse,
            trace := { tr with onTimeoutFires := tr.onTimeoutFires + 1 } }
        else if env.sigPost.user then
          { result := .error (.abortError "Request was aborted by user" none),
            breaker := b, lastResponse,
            trace := { tr with onAbortFires := tr.onAbortFires + 1 } }
        else
          { result := .error (.abortError "Request was aborted" (some .domAbort)),
            breaker := b, lastResponse, trace := tr }
      | .typeError m =>
        if networkMsgTest m then
          { result := .error (.networkError m (some (.typeError m))),
            breaker := b, lastResponse, trace := tr }
        else
          { result := .error (.typeError m), breaker := b, lastResponse,
            trace := tr }
      | e =>
        { result := .error e, breaker := b, lastResponse, trace := tr }

/-! ### Retry loop (`retry` of retry.ts with the `RetryContext` signature,
wrapped by `shouldRetryWithHook` of client.ts lines 188-201) -/

/-- The attempt-scoped record passed to the retry predicate (the constant
`request` field is omitted; the default predicate does not read it). -/
structure RetryCtx where
  attempt : Nat
  response : Option Response
  error : Option JSError

/-- The default retry predicate (`shouldRetry` of should-retry.ts). -/
def defaultShouldRetry (ctx : RetryCtx) : Bool :=
  match ctx.error with
  | some (.abortError _ _) => false
  | some (.circuitOpenError _) => false
  | some (.timeoutError _ _) => false
  | _ =>
    match ctx.response with
    | none => true
    | some r => decide (500 ≤ r.status) || decide (r.status = 429)

/-- `shouldRetryWithHook` (client.ts lines 189-201): consult the effective
predicate; when it retries within the budget, fire `onRetry`.  Returns the
predicate's verdict and the updated trace. -/
def shouldRetryWithHook (pred : RetryCtx → Bool) (retries : Nat)
    (ctx : RetryCtx) (tr : Trace) : Bool × Trace :=
  let retrying := pred ctx
  if retrying ∧ ctx.attempt ≤ retries then
    (retrying, { tr with onRetryFires := tr.onRetryFires + 1 })
  else
    (retrying, tr)

/-- Note one more scheduled retry (a `continue` after a delay) in the trace. -/
def Trace.scheduleRetry (tr : Trace) : Trace :=
  { tr with retriesScheduled := tr.retriesScheduled + 1 }

/-- Result of the whole retry loop (and later of `retryWithHooks`). -/
structure RunOut where
  result : Except JSError Response
  breaker : BreakerSt
  lastRes : Option Response
  trace : Trace

/-- The loop of `retry` (retry.ts lines 51-75), specialised to the closure of
client.ts.  Iteration `i` of `for (let i = 0; i <= retries; i++)` is run with
`remaining` iterations left after it (`i + remaining = retries` on entry), so
`remaining > 0` iff `i < retries` and `remaining = 0` iff `i === retries`.
`lastRes` is the most recent successful response; retry.ts's `lastRes` and
the closure's captured `lastResponse` are assigned the same value at the same
points, so one field models both.  The final `throw lastErr` after the loop
is unreachable and not modelled.  Retry delays are waited out but have no
observable effect in the model. -/
def runRetryAux (bcfg : Option BreakerCfg) (bhooks : BreakerHooks)
    (pred : RetryCtx → Bool) (retries : Nat) (env : Nat → AttemptEnv) :
    (i : Nat) → (remaining : Nat) → BreakerSt → Option Response → Trace → RunOut
  | i, remaining, b, lastRes, tr =>
    let a := doAttempt bcfg bhooks (env i) b lastRes tr
    match a.result with
    | .ok r =>
      match remaining with
      | 0 => { result := .ok r, breaker := a.breaker, lastRes := some r,
               trace := a.trace }
      | rem' + 1 =>
        let s := shouldRetryWithHook pred retries
          { attempt := i + 1, response := some r, error := none } a.trace
        if s.1 then
          runRetryAux bcfg bhooks pred retries env (i + 1) rem' a.breaker (some r)
            s.2.scheduleRetry
        else
          { result := .ok r, breaker := a.breaker, lastRes := some r,
            trace := s.2 }
    | .error e =>
      match remaining with
      | 0 => { result := .error e, breaker := a.breaker, lastRes := a.lastResponse,
               trace := a.trace }
      | rem' + 1 =>
        let s := shouldRetryWithHook pred retries
          { attempt := i + 1, response := lastRes, error := some e } a.trace
        if s.1 then
          runRetryAux bcfg bhooks pred retries env (i + 1) rem' a.breaker a.lastResponse
            s.2.scheduleRetry
        else
          { result := .error e, breaker := a.breaker, lastRes := a.lastResponse,
            trace := s.2 }

/-- Entry into the retry loop: `retry(fn, retries, …)` starts at `i = 0` with
all `retries` iterations remaining after it. -/
def runRetry (bcfg : Option BreakerCfg) (bhooks : BreakerHooks)
    (pred : RetryCtx → Bool) (retries : Nat) (env : Nat → AttemptEnv)
    (b : BreakerSt) (tr : Trace) : RunOut :=
  runRetryAux bcfg bhooks pred retries env 0 retries b none tr

/-! ### `retryWithHooks` (client.ts lines 180-344) -/

/-- The HTTP-error test of client.ts lines 286-288 and 302-304, verbatim:
`(status >= 400 && status < 500 && status !== 429) || status >= 500 ||
status === 429`. -/
def httpQualifies (r : Response) : Bool :=
  (decide (400 ≤ r.status) && decide (r.status < 500) && !decide (r.status = 429))
    || decide (500 ≤ r.status) || decide (r.status = 429)

/-- The `HttpError` message: `HTTP error: ${status} ${statusText}`. -/
def httpMessage (r : Response) : String :=
  "HTTP error: " ++ toString r.status ++ " " ++ r.statusText

/-- The catch handler of `retryWithHooks` (client.ts lines 297-343): when any
attempt produced a response, surface that response (as `HttpError` when the
caller opted in, otherwise as a normal return); otherwise dispatch on the
error's class, wrapping anything unnamed in `RetryLimitError`. -/
def catchHandler (throwOnHttp : Bool) (lastRes : Option Response)
    (err : JSError) (tr : Trace) : Except JSError Response × Trace :=
  match lastRes with
  | some resp =>
    if throwOnHttp && httpQualifies resp then
      (.error (.httpError (httpMessage resp) resp), tr)
    else
      (.ok resp, tr)
  | none =>
    match err with
    | .timeoutError m c =>
      (.error (.timeoutError m c),
        { tr with onTimeoutFires := tr.onTimeoutFires + 1,
                  onErrorFires := tr.onErrorFires + 1,
                  onCompleteFires := tr.onCompleteFires + 1 })
    | .abortError m c =>
      (.error (.abortError m c),
        { tr with onAbortFires := tr.onAbortFires + 1,
                  onErrorFires := tr.onErrorFires + 1,
                  onCompleteFires := tr.onCompleteFires + 1 })
    | .networkError m c =>
      (.error (.networkError m c),
        { tr with onErrorFires := tr.onErrorFires + 1,
                  onCompleteFires := tr.onCompleteFires + 1 })
    | e =>
      (.error (.retryLimitError (e.messageOf.getD "Retry limit reached") (some e)),
        { tr with onErrorFires := tr.onErrorFires + 1,
                  onCompleteFires := tr.onCompleteFires + 1 })

/-- `retryWithHooks` (client.ts lines 180-344): run the retry loop; on
success fire `after`/`onComplete` and possibly raise `HttpError`; on failure
run the catch handler.  `transformResponse` is modelled as absent. -/
def retryWithHooks (bcfg : Option BreakerCfg) (bhooks : BreakerHooks)
    (pred : RetryCtx → Bool) (retries : Nat) (throwOnHttp : Bool)
    (env : Nat → AttemptEnv) (b : BreakerSt) (tr : Trace) : RunOut :=
  let run := runRetry bcfg bhooks pred retries env b tr
  match run.result with
  | .ok res =>
    let tr1 := { run.trace with
      afterFires := run.trace.afterFires + 1,
      onCompleteFires := run.trace.onCompleteFires + 1 }
    if throwOnHttp && httpQualifies res then
      let p := catchHandler throwOnHttp run.lastRes
        (.httpError (httpMessage res) res) tr1
      { result := p.1, breaker := run.breaker, lastRes := run.lastRes,
        trace := p.2 }
    else
      { result := .ok res, breaker := run.breaker, lastRes := run.lastRes,
        trace := tr1 }
  | .error e =>
    let p := catchHandler throwOnHttp run.lastRes e run.trace
    { result := p.1, breaker := run.breaker, lastRes := run.lastRes,
      trace := p.2 }

/-! ### The whole call (`client`, client.ts lines 67-398):
`transformRequest`/`before` hooks, then `breaker.invoke(retryWithHooks)`
with the client-level circuit-open catch of lines 346-358. -/

/-- Per-call environment: `Date.now()` at the breaker gate check, at the
`invoke` catch (whole-call failure), and the per-iteration environments. -/
structure CallEnv where
  gateNow : Nat
  endNow : Nat
  attempts : Nat → AttemptEnv

/-- The whole orchestrated call, starting after the dedupe block (dedupe and
the pending registry are modelled separately).  Returns the call outcome, the
breaker state after the call and the event trace. -/
def clientCall (bcfg : Option BreakerCfg) (bhooks : BreakerHooks)
    (pred : RetryCtx → Bool) (retries : Nat) (throwOnHttp : Bool)
    (cenv : CallEnv) (b : BreakerSt) : RunOut :=
  let tr0 : Trace := { beforeFires := 1 }
  match bcfg with
  | none =>
    retryWithHooks none bhooks pred retries throwOnHttp cenv.attempts b tr0
  | some cfg =>
    if cenv.gateNow < b.nextAttempt then
      -- invoke throws CircuitOpenError; the client-level catch fires
      -- onCircuitOpen, onError, onComplete (client.ts lines 347-357)
      { result := .error (.circuitOpenError "Circuit is open"), breaker := b,
        lastRes := none,
        trace := { tr0 with
          onCircuitOpenFires := 1, onErrorFires := 1, onCompleteFires := 1 } }
    else
      let r := retryWithHooks (some cfg) bhooks pred retries throwOnHttp
        cenv.attempts b tr0
      match r.result with
      | .ok res =>
        let p := onSuccess bhooks r.breaker
        { result := .ok res, breaker := p.1, lastRes := r.lastRes,
          trace := { r.trace with breakerCloseFires :=
            r.trace.breakerCloseFires + (if p.2 then 1 else 0) } }
      | .error e =>
        let p := onFailure cfg bhooks cenv.endNow r.breaker
        let tr1 := { r.trace with breakerOpenFires :=
          r.trace.breakerOpenFires + (if p.2 then 1 else 0) }
        match e with
        | .circuitOpenError m =>
          { result := .error (.circuitOpenError m), breaker := p.1,
            lastRes := r.lastRes,
            trace := { tr1 with
              onCircuitOpenFires := tr1.onCircuitOpenFires + 1,
              onErrorFires := tr1.onErrorFires + 1,
              onCompleteFires := tr1.onCompleteFires + 1 } }
        | e =>
          { result := .error e, breaker := p.1, lastRes := r.lastRes,
            trace := { tr1 with
              onErrorFires := tr1.onErrorFires + 1,
              onCompleteFires := tr1.onCompleteFires + 1 } }

/-- Extract the status of a successful outcome (for stating results). -/
def resultStatus : Except JSError Response → Option Nat
  | .ok r => some r.status
  | .error _ => none

/-! ### Helper lemmas about the attempt body and the retry loop -/

/-- `doAttempt` never touches the retry-hook counters, and performs at most
one transport invocation. -/
theorem doAttempt_counters (bcfg : Option BreakerCfg) (bhooks : BreakerHooks)
    (env : AttemptEnv) (b : BreakerSt) (lastRes : Option Response) (tr : Trace) :
    (doAttempt bcfg bhooks env b lastRes tr).trace.onRetryFires = tr.onRetryFires ∧
    (doAttempt bcfg bhooks env b lastRes tr).trace.retriesScheduled = tr.retriesScheduled ∧
    tr.transportCalls ≤ (doAttempt bcfg bhooks env b lastRes tr).trace.transportCalls ∧
    (doAttempt bcfg bhooks env b lastRes tr).trace.transportCalls ≤ tr.transportCalls + 1 := by
  unfold doAttempt Trace.record
  repeat' split
  all_goals simp

/-- Field view of `Trace.scheduleRetry`. -/
theorem scheduleRetry_fields (tr : Trace) :
    tr.scheduleRetry.transportCalls = tr.transportCalls ∧
    tr.scheduleRetry.onRetryFires = tr.onRetryFires ∧
    tr.scheduleRetry.retriesScheduled = tr.retriesScheduled + 1 := by
  simp [Trace.scheduleRetry]

/-- The hook wrapper leaves every counter except `onRetryFires` unchanged,
and its verdict is the predicate's. -/
theorem shouldRetryWithHook_spec (pred : RetryCtx → Bool) (retries : Nat)
    (ctx : RetryCtx) (tr : Trace) :
    (shouldRetryWithHook pred retries ctx tr).1 = pred ctx ∧
    (shouldRetryWithHook pred retries ctx tr).2.transportCalls = tr.transportCalls ∧
    (shouldRetryWithHook pred retries ctx tr).2.retriesScheduled = tr.retriesScheduled ∧
    (shouldRetryWithHook pred retries ctx tr).2.onRetryFires
      = tr.onRetryFires + (if pred ctx ∧ ctx.attempt ≤ retries then 1 else 0) := by
  unfold shouldRetryWithHook
  split
  · rename_i hc
    simp_all
  · rename_i hc
    simp [hc]

/-- Counter bookkeeping of the retry loop: the number of transport calls grows
by at most `remaining + 1`, never shrinks, and `onRetry` firings track
scheduled retries one-for-one (for in-budget `remaining`). -/
theorem runRetryAux_counters (bcfg : Option BreakerCfg) (bhooks : BreakerHooks)
    (pred : RetryCtx → Bool) (retries : Nat) (env : Nat → AttemptEnv) :
    ∀ remaining i b lastRes tr, i + remaining ≤ retries →
      ((runRetryAux bcfg bhooks pred retries env i remaining b lastRes tr).trace.transportCalls
          ≤ tr.transportCalls + remaining + 1) ∧
      (tr.transportCalls ≤
        (runRetryAux bcfg bhooks pred retries env i remaining b lastRes tr).trace.transportCalls) ∧
      ((runRetryAux bcfg bhooks pred retries env i remaining b lastRes tr).trace.onRetryFires
          + tr.retriesScheduled
        = (runRetryAux bcfg bhooks pred retries env i remaining b lastRes tr).trace.retriesScheduled
          + tr.onRetryFires) := by
  intro remaining
  induction remaining with
  | zero =>
    intro i b lastRes tr _
    have h := doAttempt_counters bcfg bhooks (env i) b lastRes tr
    unfold runRetryAux
    generalize ha : doAttempt bcfg bhooks (env i) b lastRes tr = a
    rw [ha] at h
    cases hres : a.result with
    | ok r => simp only [hres]; exact ⟨by omega, by omega, by omega⟩
    | error e => simp only [hres]; exact ⟨by omega, by omega, by omega⟩
  | succ rem' ih =>
    intro i b lastRes tr hle
    have h := doAttempt_counters bcfg bhooks (env i) b lastRes tr
    unfold runRetryAux
    generalize ha : doAttempt bcfg bhooks (env i) b lastRes tr = a
    rw [ha] at h
    cases hres : a.result with
    | ok r =>
      simp only [hres]
      obtain ⟨hs1, hs2, hs3, hs4⟩ := shouldRetryWithHook_spec pred retries
        { attempt := i + 1, response := some r, error := none } a.trace
      split
      · rename_i hcond
        have hp : pred { attempt := i + 1, response := some r, error := none } = true := by
          rw [← hs1]; exact hcond
        have hcnd : pred { attempt := i + 1, response := some r, error := none } = true ∧
            RetryCtx.attempt { attempt := i + 1, response := some r, error := none }
              ≤ retries := ⟨hp, by simp; omega⟩
        rw [if_pos hcnd] at hs4
        obtain ⟨hr1, hr2, hr3⟩ := ih (i + 1) a.breaker (some r)
          (shouldRetryWithHook pred retries
            { attempt := i + 1, response := some r, error := none } a.trace).2.scheduleRetry
          (by omega)
        obtain ⟨hf1, hf2, hf3⟩ := scheduleRetry_fields
          (shouldRetryWithHook pred retries
            { attempt := i + 1, response := some r, error := none } a.trace).2
        exact ⟨by omega, by omega, by omega⟩
      · rename_i hcond
        have hp : pred { attempt := i + 1, response := some r, error := none } = false := by
          rw [← hs1]; simpa using hcond
        rw [hp] at hs4
        simp at hs4
        refine ⟨?_, ?_, ?_⟩ <;> (dsimp only; omega)
    | error e =>
      simp only [hres]
      obtain ⟨hs1, hs2, hs3, hs4⟩ := shouldRetryWithHook_spec pred retries
        { attempt := i + 1, response := lastRes, error := some e } a.trace
      split
      · rename_i hcond
        have hp : pred { attempt := i + 1, response := lastRes, error := some e } = true := by
          rw [← hs1]; exact hcond
        have hcnd : pred { attempt := i + 1, response := lastRes, error := some e } = true ∧
            RetryCtx.attempt { attempt := i + 1, response := lastRes, error := some e }
              ≤ retries := ⟨hp, by simp; omega⟩
        rw [if_pos hcnd] at hs4
        obtain ⟨hr1, hr2, hr3⟩ := ih (i + 1) a.breaker a.lastResponse
          (shouldRetryWithHook pred retries
            { attempt := i + 1, response := lastRes, error := some e } a.trace).2.scheduleRetry
          (by omega)
        obtain ⟨hf1, hf2, hf3⟩ := scheduleRetry_fields
          (shouldRetryWithHook pred retries
            { attempt := i + 1, response := lastRes, error := some e } a.trace).2
        exact ⟨by omega, by omega, by omega⟩
      · rename_i hcond
        have hp : pred { attempt := i + 1, response := lastRes, error := some e } = false := by
          rw [← hs1]; simpa using hcond
        rw [hp] at hs4
        simp at hs4
        refine ⟨?_, ?_, ?_⟩ <;> (dsimp only; omega)

/-- A successful run's `lastRes` is the returned response. -/
theorem runRetryAux_ok_lastRes (bcfg : Option BreakerCfg) (bhooks : BreakerHooks)
    (pred : RetryCtx → Bool) (retries : Nat) (env : Nat → AttemptEnv) :
    ∀ remaining i b lastRes tr r,
      (runRetryAux bcfg bhooks pred retries env i remaining b lastRes tr).result = .ok r →
      (runRetryAux bcfg bhooks pred retries env i remaining b lastRes tr).lastRes = some r := by
  intro remaining
  induction remaining with
  | zero =>
    intro i b lastRes tr r
    unfold runRetryAux
    generalize doAttempt bcfg bhooks (env i) b lastRes tr = a
    cases hres : a.result with
    | ok r' => simp only [hres]; intro h; simp at h ⊢; exact h
    | error e => simp only [hres]; intro h; simp at h
  | succ rem' ih =>
    intro i b lastRes tr r
    unfold runRetryAux
    generalize doAttempt bcfg bhooks (env i) b lastRes tr = a
    cases hres : a.result with
    | ok r' =>
      simp only [hres]
      split
      · exact ih (i + 1) a.breaker (some r') _ r
      · intro h; simp at h ⊢; exact h
    | error e =>
      simp only [hres]
      split
      · exact ih (i + 1) a.breaker a.lastResponse _ r
      · intro h; simp at h

/-- `doAttempt` with the caller's signal already aborted at the pre-check. -/
theorem doAttempt_user (bcfg : Option BreakerCfg) (bhooks : BreakerHooks)
    (env : AttemptEnv) (b : BreakerSt) (lastRes : Option Response) (tr : Trace)
    (h : env.sigPre.user = true) :
    doAttempt bcfg bhooks env b lastRes tr =
      { result := .error (.abortError "Request was aborted by user" none),
        breaker := b, lastResponse := lastRes,
        trace := { tr with onAbortFires := tr.onAbortFires + 1 } } := by
  unfold doAttempt
  simp [h]

/-- `doAttempt` with the timeout signal fired (and not the caller's) at the
pre-check. -/
theorem doAttempt_timeout (bcfg : Option BreakerCfg) (bhooks : BreakerHooks)
    (env : AttemptEnv) (b : BreakerSt) (lastRes : Option Response) (tr : Trace)
    (hu : env.sigPre.user = false) (ht : env.sigPre.timeout = true) :
    doAttempt bcfg bhooks env b lastRes tr =
      { result := .error (.timeoutError "signal timed out" none),
        breaker := b, lastResponse := lastRes,
        trace := { tr with onTimeoutFires := tr.onTimeoutFires + 1 } } := by
  unfold doAttempt
  simp [hu, ht]

/-- Summary of the catch-handler classification of a thrown transport error
(client.ts lines 247-271), proven to agree with `doAttempt` in
`doAttempt_err_result`. -/
def classifyErr (post : SigState) : JSError → Except JSError Response
  | .domAbort =>
    if post.timeout ∧ ¬post.user then
      .error (.timeoutError "signal timed out" (some .domAbort))
    else if post.user then
      .error (.abortError "Request was aborted by user" none)
    else
      .error (.abortError "Request was aborted" (some .domAbort))
  | .typeError msg =>
    if networkMsgTest msg then
      .error (.networkError msg (some (.typeError msg)))
    else
      .error (.typeError msg)
  | e => .error e

/-- `doAttempt` with no signal aborted at the pre-check: the combined-signal
check passes too. -/
theorem doAttempt_reaches_transport (bcfg : Option BreakerCfg)
    (bhooks : BreakerHooks) (env : AttemptEnv) (b : BreakerSt)
    (lastRes : Option Response) (tr : Trace)
    (hu : env.sigPre.user = false) (ht : env.sigPre.timeout = false)
    (htr : env.sigPre.transformed = false) :
    (∀ r, env.result = .ok r →
      (doAttempt bcfg bhooks env b lastRes tr).result = .ok r) ∧
    (∀ e, env.result = .err e →
      (doAttempt bcfg bhooks env b lastRes tr).result = classifyErr env.sigPost e) ∧
    (doAttempt bcfg bhooks env b lastRes tr).trace.transportCalls
      = tr.transportCalls + 1 := by
  have hc : env.sigPre.combined = false := by
    simp [SigState.combined, hu, ht, htr]
  refine ⟨?_, ?_, ?_⟩
  · intro r heq
    unfold doAttempt
    simp only [hu, ht, hc, heq]
    cases bcfg <;> simp <;> split <;> simp
  · intro e heq
    unfold doAttempt
    simp only [hu, ht, hc, heq]
    cases bcfg <;> cases e <;> simp [classifyErr] <;> repeat' split <;> simp_all
  · unfold doAttempt
    simp only [hu, ht, hc]
    cases heq : env.result with
    | ok r => cases bcfg <;> simp [Trace.record] <;> split <;> simp
    | err e => cases bcfg <;> cases e <;> simp [Trace.record] <;> repeat' split <;> simp_all

/-- With the caller's signal aborted before every attempt, the retry loop
rejects with the user-abort `AbortError` and records no response. -/
theorem runRetryAux_user_abort (bcfg : Option BreakerCfg) (bhooks : BreakerHooks)
    (pred : RetryCtx → Bool) (retries : Nat) (env : Nat → AttemptEnv)
    (huser : ∀ k, (env k).sigPre.user = true) :
    ∀ remaining i b lastRes tr,
      (runRetryAux bcfg bhooks pred retries env i remaining b lastRes tr).result
        = .error (.abortError "Request was aborted by user" none) ∧
      (runRetryAux bcfg bhooks pred retries env i remaining b lastRes tr).lastRes
        = lastRes := by
  intro remaining
  induction remaining with
  | zero =>
    intro i b lastRes tr
    unfold runRetryAux
    rw [doAttempt_user bcfg bhooks (env i) b lastRes tr (huser i)]
    exact ⟨rfl, rfl⟩
  | succ rem' ih =>
    intro i b lastRes tr
    unfold runRetryAux
    rw [doAttempt_user bcfg bhooks (env i) b lastRes tr (huser i)]
    simp only
    split
    · exact ih (i + 1) b lastRes _
    · exact ⟨rfl, rfl⟩

/-- With the timeout signal fired (and the caller's signal clear) before
every attempt, the retry loop rejects with `TimeoutError` and records no
response. -/
theorem runRetryAux_timeout (bcfg : Option BreakerCfg) (bhooks : BreakerHooks)
    (pred : RetryCtx → Bool) (retries : Nat) (env : Nat → AttemptEnv)
    (huser : ∀ k, (env k).sigPre.user = false)
    (htime : ∀ k, (env k).sigPre.timeout = true) :
    ∀ remaining i b lastRes tr,
      (runRetryAux bcfg bhooks pred retries env i remaining b lastRes tr).result
        = .error (.timeoutError "signal timed out" none) ∧
      (runRetryAux bcfg bhooks pred retries env i remaining b lastRes tr).lastRes
        = lastRes := by
  intro remaining
  induction remaining with
  | zero =>
    intro i b lastRes tr
    unfold runRetryAux
    rw [doAttempt_timeout bcfg bhooks (env i) b lastRes tr (huser i) (htime i)]
    exact ⟨rfl, rfl⟩
  | succ rem' ih =>
    intro i b lastRes tr
    unfold runRetryAux
    rw [doAttempt_timeout bcfg bhooks (env i) b lastRes tr (huser i) (htime i)]
    simp only
    split
    · exact ih (i + 1) b lastRes _
    · exact ⟨rfl, rfl⟩

/-- When the retry loop fails, `retryWithHooks` returns what the catch
handler makes of the failure. -/
theorem retryWithHooks_error (bcfg : Option BreakerCfg) (bhooks : BreakerHooks)
    (pred : RetryCtx → Bool) (retries : Nat) (throwOnHttp : Bool)
    (env : Nat → AttemptEnv) (b : BreakerSt) (tr : Trace) (e : JSError)
    (he : (runRetry bcfg bhooks pred retries env b tr).result = .error e) :
    (retryWithHooks bcfg bhooks pred retries throwOnHttp env b tr).result
      = (catchHandler throwOnHttp (runRetry bcfg bhooks pred retries env b tr).lastRes
          e (runRetry bcfg bhooks pred retries env b tr).trace).1 := by
  unfold retryWithHooks
  simp only [he]

/-- When the retry loop succeeds, `retryWithHooks` either raises `HttpError`
(opt-in and qualifying status) or returns the response. -/
theorem retryWithHooks_ok (bcfg : Option BreakerCfg) (bhooks : BreakerHooks)
    (pred : RetryCtx → Bool) (retries : Nat) (throwOnHttp : Bool)
    (env : Nat → AttemptEnv) (b : BreakerSt) (tr : Trace) (res : Response)
    (hr : (runRetry bcfg bhooks pred retries env b tr).result = .ok res) :
    (retryWithHooks bcfg bhooks pred retries throwOnHttp env b tr).result
      = if throwOnHttp && httpQualifies res then
          (catchHandler throwOnHttp (runRetry bcfg bhooks pred retries env b tr).lastRes
            (.httpError (httpMessage res) res)
            { (runRetry bcfg bhooks pred retries env b tr).trace with
              afterFires := (runRetry bcfg bhooks pred retries env b tr).trace.afterFires + 1,
              onCompleteFires :=
                (runRetry bcfg bhooks pred retries env b tr).trace.onCompleteFires + 1 }).1
        else .ok res := by
  unfold retryWithHooks
  simp only [hr]
  split <;> rfl

/-- When the breaker gate lets the call through (or there is no breaker),
the call's outcome is exactly that of `retryWithHooks`. -/
theorem clientCall_gate_passes (bcfg : Option BreakerCfg) (bhooks : BreakerHooks)
    (pred : RetryCtx → Bool) (retries : Nat) (throwOnHttp : Bool)
    (cenv : CallEnv) (b : BreakerSt)
    (hgate : ∀ cfg, bcfg = some cfg → b.nextAttempt ≤ cenv.gateNow) :
    (clientCall bcfg bhooks pred retries throwOnHttp cenv b).result
      = (retryWithHooks bcfg bhooks pred retries throwOnHttp cenv.attempts b
          { beforeFires := 1 }).result := by
  cases bcfg with
  | none => rfl
  | some cfg =>
    unfold clientCall
    have h : ¬ (cenv.gateNow < b.nextAttempt) := by
      have := hgate cfg rfl
      omega
    simp only [h, if_false]
    cases hres : (retryWithHooks (some cfg) bhooks pred retries throwOnHttp
        cenv.attempts b { beforeFires := 1 }).result with
    | ok res => simp [hres]
    | error e =>
      simp only [hres]
      cases e <;> rfl

/-! ### Claim C3: retry budget and the onRetry hook -/

/-- A call environment in which nothing is aborted. -/
def sigIdle : SigState := { user := false, timeout := false, transformed := false }

/-- Transport for the C3 scenario: fails twice, then succeeds. -/
def claim3Env : Nat → AttemptEnv := fun k =>
  if k < 2 then
    { now := 0, sigPre := sigIdle, result := .err (.generic (some "fail")),
      sigPost := sigIdle }
  else
    { now := 0, sigPre := sigIdle, result := .ok { status := 200, statusText := "OK" },
      sigPost := sigIdle }

/-- Claim C3: the retry loop performs at most `retries + 1` transport
attempts; the `onRetry` hook fires exactly once per scheduled retry (the
firing and scheduling counters advance in lock step) and never on the final
non-retried failure; and in the concrete scenario with `retries = 2` and a
transport failing twice then succeeding, the call succeeds with status 200,
the transport is invoked exactly 3 times and `onRetry` fires exactly twice. -/
theorem claim3_retry_budget :
    (∀ bcfg bhooks pred retries env b tr,
       (runRetry bcfg bhooks pred retries env b tr).trace.transportCalls
         ≤ tr.transportCalls + retries + 1) ∧
    (∀ bcfg bhooks pred retries env b tr,
       (runRetry bcfg bhooks pred retries env b tr).trace.onRetryFires
           + tr.retriesScheduled
         = (runRetry bcfg bhooks pred retries env b tr).trace.retriesScheduled
           + tr.onRetryFires) ∧
    resultStatus (clientCall none { hasOpen := false, hasClose := false }
        defaultShouldRetry 2 false
        { gateNow := 0, endNow := 0, attempts := claim3Env } BreakerSt.init).result
      = some 200 ∧
    (clientCall none { hasOpen := false, hasClose := false }
        defaultShouldRetry 2 false
        { gateNow := 0, endNow := 0, attempts := claim3Env }
        BreakerSt.init).trace.transportCalls = 3 ∧
    (clientCall none { hasOpen := false, hasClose := false }
        defaultShouldRetry 2 false
        { gateNow := 0, endNow := 0, attempts := claim3Env }
        BreakerSt.init).trace.onRetryFires = 2 := by
  refine ⟨?_, ?_, ?_, ?_, ?_⟩
  · intro bcfg bhooks pred retries env b tr
    have h := runRetryAux_counters bcfg bhooks pred retries env retries 0 b none tr
      (by omega)
    simpa [runRetry] using h.1
  · intro bcfg bhooks pred retries env b tr
    have h := runRetryAux_counters bcfg bhooks pred retries env retries 0 b none tr
      (by omega)
    simpa [runRetry] using h.2.2
  · rfl
  · rfl
  · rfl

/-! ### Claim C6: `throwOnHttpError` and `HttpError` -/

/-- Transport for the C6 scenario: 429 on every attempt. -/
def claim6Env : Nat → AttemptEnv := fun _ =>
  { now := 0, sigPre := sigIdle,
    result := .ok { status := 429, statusText := "TooMany" }, sigPost := sigIdle }

/-- Transport for the C6 retried-then-failing scenario: a 500 response, then
an abort raised by the fired timeout signal. -/
def claim6EnvB : Nat → AttemptEnv := fun k =>
  if k = 0 then
    { now := 0, sigPre := sigIdle,
      result := .ok { status := 500, statusText := "ISE" }, sigPost := sigIdle }
  else
    { now := 0, sigPre := sigIdle, result := .err .domAbort,
      sigPost := { user := false, timeout := true, transformed := false } }

/-- Claim C6: with `throwOnHttpError = true`, a final response with a
qualifying HTTP-error status surfaces as `HttpError` carrying that response —
both when the loop returns it and when a retried response is followed by a
final thrown error (so never `RetryLimitError`); with `throwOnHttpError =
false` the response is returned normally. -/
theorem claim6_throw_on_http :
    ∀ bcfg bhooks pred retries env b tr res,
      ((runRetry bcfg bhooks pred retries env b tr).result = .ok res →
        httpQualifies res = true →
        (retryWithHooks bcfg bhooks pred retries true env b tr).result
          = .error (.httpError (httpMessage res) res)) ∧
      (∀ e, (runRetry bcfg bhooks pred retries env b tr).result = .error e →
        (runRetry bcfg bhooks pred retries env b tr).lastRes = some res →
        httpQualifies res = true →
        (retryWithHooks bcfg bhooks pred retries true env b tr).result
          = .error (.httpError (httpMessage res) res)) ∧
      ((runRetry bcfg bhooks pred retries env b tr).result = .ok res →
        (retryWithHooks bcfg bhooks pred retries false env b tr).result = .ok res) := by
  intro bcfg bhooks pred retries env b tr res
  refine ⟨?_, ?_, ?_⟩
  · intro h hq
    have hl : (runRetry bcfg bhooks pred retries env b tr).lastRes = some res :=
      runRetryAux_ok_lastRes bcfg bhooks pred retries env retries 0 b none tr res h
    rw [retryWithHooks_ok bcfg bhooks pred retries true env b tr res h]
    rw [hl]
    simp [catchHandler, hq]
  · intro e he hl hq
    rw [retryWithHooks_error bcfg bhooks pred retries true env b tr e he, hl]
    simp [catchHandler, hq]
  · intro h
    rw [retryWithHooks_ok bcfg bhooks pred retries false env b tr res h]
    simp

/-- Witness for C6 at concrete inputs: all-429 with opt-in raises the 429
`HttpError`; a retried 500 followed by a timeout abort still raises the 500
`HttpError`; all-429 without opt-in resolves with the 429 response. -/
theorem claim6_throw_on_http_witness :
    (retryWithHooks none { hasOpen := false, hasClose := false } defaultShouldRetry 1
        true claim6Env BreakerSt.init {}).result
      = .error (.httpError (httpMessage { status := 429, statusText := "TooMany" })
          { status := 429, statusText := "TooMany" }) ∧
    (retryWithHooks none { hasOpen := false, hasClose := false } defaultShouldRetry 1
        true claim6EnvB BreakerSt.init {}).result
      = .error (.httpError (httpMessage { status := 500, statusText := "ISE" })
          { status := 500, statusText := "ISE" }) ∧
    (retryWithHooks none { hasOpen := false, hasClose := false } defaultShouldRetry 1
        false claim6Env BreakerSt.init {}).result
      = .ok { status := 429, statusText := "TooMany" } := by
  refine ⟨?_, ?_, ?_⟩
  · exact (claim6_throw_on_http none { hasOpen := false, hasClose := false }
      defaultShouldRetry 1 claim6Env BreakerSt.init {}
      { status := 429, statusText := "TooMany" }).1 rfl rfl
  · exact (claim6_throw_on_http none { hasOpen := false, hasClose := false }
      defaultShouldRetry 1 claim6EnvB BreakerSt.init {}
      { status := 500, statusText := "ISE" }).2.1
      (.timeoutError "signal timed out" (some .domAbort)) rfl rfl rfl
  · exact (claim6_throw_on_http none { hasOpen := false, hasClose := false }
      defaultShouldRetry 1 claim6Env BreakerSt.init {}
      { status := 429, statusText := "TooMany" }).2.2 rfl

/-! ### Claim C9: wrapping in `RetryLimitError` -/

/-- The named typed errors of the claim: `TimeoutError`, `AbortError`,
`CircuitOpenError`, `NetworkError`. -/
def isNamedError : JSError → Bool
  | .timeoutError _ _ => true
  | .abortError _ _ => true
  | .circuitOpenError _ => true
  | .networkError _ _ => true
  | _ => false

/-- Transport for the C9 counterexample: a retryable 500 response, then an
unnamed thrown error. -/
def claim9Env : Nat → AttemptEnv := fun k =>
  if k = 0 then
    { now := 0, sigPre := sigIdle,
      result := .ok { status := 500, statusText := "ISE" }, sigPost := sigIdle }
  else
    { now := 0, sigPre := sigIdle, result := .err (.generic (some "boom")),
      sigPost := sigIdle }

/-- Counterexample to C9 as stated: with `retries = 1`, a 500 response on the
first attempt and an unnamed error `boom` on the second, the loop is
exhausted with an unnamed final error, yet the call resolves with the stale
500 response instead of rejecting with `RetryLimitError` (client.ts lines
298-313 return `lastResponse`). -/
theorem claim9_counterexample :
    (clientCall none { hasOpen := false, hasClose := false } defaultShouldRetry 1 false
        { gateNow := 0, endNow := 0, attempts := claim9Env } BreakerSt.init).result
      = .ok { status := 500, statusText := "ISE" } ∧
    ∀ m c, (clientCall none { hasOpen := false, hasClose := false } defaultShouldRetry 1
        false { gateNow := 0, endNow := 0, attempts := claim9Env }
        BreakerSt.init).result ≠ .error (.retryLimitError m c) := by
  refine ⟨rfl, ?_⟩
  intro m c h
  have h2 : (Except.ok { status := 500, statusText := "ISE" } :
      Except JSError Response) = .error (.retryLimitError m c) := by
    rw [← h]
    rfl
  exact Except.noConfusion h2

/-- Claim C9 (amended): when the retry loop ends in an error that is none of
the named typed errors and no attempt produced a response, the call rejects
with `RetryLimitError` carrying the final error's message (or the default)
and wrapping it as `cause`. -/
theorem claim9_retry_limit :
    ∀ bcfg bhooks pred retries throwOnHttp env b tr e,
      (runRetry bcfg bhooks pred retries env b tr).result = .error e →
      (runRetry bcfg bhooks pred retries env b tr).lastRes = none →
      isNamedError e = false →
      (retryWithHooks bcfg bhooks pred retries throwOnHttp env b tr).result
        = .error (.retryLimitError (e.messageOf.getD "Retry limit reached") (some e)) := by
  intro bcfg bhooks pred retries throwOnHttp env b tr e he hl hn
  rw [retryWithHooks_error bcfg bhooks pred retries throwOnHttp env b tr e he, hl]
  cases e <;> simp_all [catchHandler, isNamedError, JSError.messageOf]

/-- Transport for the C9 witness: a single unnamed thrown error. -/
def claim9WitEnv : Nat → AttemptEnv := fun _ =>
  { now := 0, sigPre := sigIdle, result := .err (.generic (some "boom")),
    sigPost := sigIdle }

/-- Witness for the amended C9 at a concrete input: a transport throwing the
unnamed `boom` with `retries = 0` rejects with `RetryLimitError "boom"`
wrapping it. -/
theorem claim9_retry_limit_witness :
    (retryWithHooks none { hasOpen := false, hasClose := false } defaultShouldRetry 0
        false claim9WitEnv BreakerSt.init {}).result
      = .error (.retryLimitError "boom" (some (.generic (some "boom")))) := by
  have h := claim9_retry_limit none { hasOpen := false, hasClose := false }
    defaultShouldRetry 0 false claim9WitEnv BreakerSt.init {}
    (.generic (some "boom")) rfl rfl rfl
  simpa [JSError.messageOf] using h

/-! ### Claim C2: timeout vs user-abort classification -/

/-- Signal state with only the caller's signal aborted. -/
def sigUser : SigState := { user := true, timeout := false, transformed := false }

/-- Signal state with only the timeout signal fired. -/
def sigTimeout : SigState := { user := false, timeout := true, transformed := false }

/-- Counterexample to C2 as stated: with `retries = 1`, a retryable 500
response on the first attempt and the timeout firing before the second
attempt (caller's signal never aborted), the effective timeout elapsed before
completion, yet the call resolves with the stale 500 response instead of
rejecting with `TimeoutError` (client.ts lines 298-313 return
`lastResponse`). -/
def claim2CexEnv : Nat → AttemptEnv := fun k =>
  if k = 0 then
    { now := 0, sigPre := sigIdle,
      result := .ok { status := 500, statusText := "ISE" }, sigPost := sigIdle }
  else
    { now := 0, sigPre := sigTimeout,
      result := .ok { status := 200, statusText := "OK" }, sigPost := sigTimeout }

/-- Counterexample theorem for C2 (see `claim2CexEnv`). -/
theorem claim2_counterexample :
    (clientCall none { hasOpen := false, hasClose := false } defaultShouldRetry 1 false
        { gateNow := 0, endNow := 0, attempts := claim2CexEnv } BreakerSt.init).result
      = .ok { status := 500, statusText := "ISE" } ∧
    ∀ m c, (clientCall none { hasOpen := false, hasClose := false } defaultShouldRetry 1
        false { gateNow := 0, endNow := 0, attempts := claim2CexEnv }
        BreakerSt.init).result ≠ .error (.timeoutError m c) := by
  refine ⟨rfl, ?_⟩
  intro m c h
  have h2 : (Except.ok { status := 500, statusText := "ISE" } :
      Except JSError Response) = .error (.timeoutError m c) := by
    rw [← h]
    rfl
  exact Except.noConfusion h2

/-- Claim C2 (amended): provided no attempt produced an HTTP response, an
already-aborted caller signal makes the call reject with the user-abort
`AbortError` carrying no cause, and a fired timeout (with the caller's signal
clear) makes it reject with `TimeoutError`; at the classification site the
two are never swapped: a `TimeoutError` can only arise with the caller's
signal clear and the timeout signal fired, and an aborted caller signal at
the pre-check always yields the user-abort `AbortError` with no cause. -/
theorem claim2_timeout_vs_abort :
    (∀ bcfg bhooks pred retries throwOnHttp cenv b,
       (∀ cfg, bcfg = some cfg → b.nextAttempt ≤ cenv.gateNow) →
       (∀ k, (cenv.attempts k).sigPre.user = true) →
       (clientCall bcfg bhooks pred retries throwOnHttp cenv b).result
         = .error (.abortError "Request was aborted by user" none)) ∧
    (∀ bcfg bhooks pred retries throwOnHttp cenv b,
       (∀ cfg, bcfg = some cfg → b.nextAttempt ≤ cenv.gateNow) →
       (∀ k, (cenv.attempts k).sigPre.user = false) →
       (∀ k, (cenv.attempts k).sigPre.timeout = true) →
       (clientCall bcfg bhooks pred retries throwOnHttp cenv b).result
         = .error (.timeoutError "signal timed out" none)) ∧
    (∀ bcfg bhooks env b lastRes tr m c,
       TransportResult.raw env.result = true →
       (doAttempt bcfg bhooks env b lastRes tr).result = .error (.timeoutError m c) →
       env.sigPre.user = false ∧
         (env.sigPre.timeout = true ∨
           (env.sigPost.timeout = true ∧ env.sigPost.user = false))) ∧
    (∀ bcfg bhooks env b lastRes tr,
       env.sigPre.user = true →
       (doAttempt bcfg bhooks env b lastRes tr).result
         = .error (.abortError "Request was aborted by user" none)) := by
  refine ⟨?_, ?_, ?_, ?_⟩
  · intro bcfg bhooks pred retries throwOnHttp cenv b hgate hu
    rw [clientCall_gate_passes bcfg bhooks pred retries throwOnHttp cenv b hgate]
    have hrun := runRetryAux_user_abort bcfg bhooks pred retries cenv.attempts hu
      retries 0 b none { beforeFires := 1 }
    rw [retryWithHooks_error bcfg bhooks pred retries throwOnHttp cenv.attempts b
      { beforeFires := 1 } _ hrun.1]
    rw [show (runRetry bcfg bhooks pred retries cenv.attempts b
      { beforeFires := 1 }).lastRes = none from hrun.2]
    simp [catchHandler]
  · intro bcfg bhooks pred retries throwOnHttp cenv b hgate hu ht
    rw [clientCall_gate_passes bcfg bhooks pred retries throwOnHttp cenv b hgate]
    have hrun := runRetryAux_timeout bcfg bhooks pred retries cenv.attempts hu ht
      retries 0 b none { beforeFires := 1 }
    rw [retryWithHooks_error bcfg bhooks pred retries throwOnHttp cenv.attempts b
      { beforeFires := 1 } _ hrun.1]
    rw [show (runRetry bcfg bhooks pred retries cenv.attempts b
      { beforeFires := 1 }).lastRes = none from hrun.2]
    simp [catchHandler]
  · intro bcfg bhooks env b lastRes tr m c hraw h
    by_cases hu : env.sigPre.user = true
    · rw [doAttempt_user bcfg bhooks env b lastRes tr hu] at h
      exact absurd h (by simp)
    by_cases ht : env.sigPre.timeout = true
    · exact ⟨by simpa using hu, Or.inl ht⟩
    by_cases htr : env.sigPre.transformed = true
    · -- combined-signal check: throwIfAborted rethrows the raw DOMException
      have hu' : env.sigPre.user = false := by simpa using hu
      have ht' : env.sigPre.timeout = false := by simpa using ht
      have hcomb : env.sigPre.combined = true := by
        simp [SigState.combined, htr]
      have hres : (doAttempt bcfg bhooks env b lastRes tr).result = .error .domAbort := by
        unfold doAttempt
        simp [hu', ht', hcomb]
      rw [hres] at h
      exact absurd h (by simp)
    have hds := doAttempt_reaches_transport bcfg bhooks env b lastRes tr
      (by simpa using hu) (by simpa using ht) (by simpa using htr)
    cases henv : env.result with
    | ok r =>
      rw [hds.1 r henv] at h
      exact absurd h (by simp)
    | err e =>
      rw [hds.2.1 e henv] at h
      rw [henv] at hraw
      cases e with
      | domAbort =>
        simp only [classifyErr] at h
        split at h
        · rename_i hpost
          exact ⟨by simpa using hu, Or.inr ⟨hpost.1, by simpa using hpost.2⟩⟩
        · split at h
          · exact absurd h (by simp)
          · exact absurd h (by simp)
      | typeError msg =>
        simp only [classifyErr] at h
        split at h
        · exact absurd h (by simp)
        · exact absurd h (by simp)
      | generic msg => exact absurd h (by simp [classifyErr])
      | timeoutError m' c' => simp [TransportResult.raw, rawResult] at hraw
      | abortError m' c' => simp [TransportResult.raw, rawResult] at hraw
      | circuitOpenError m' => simp [TransportResult.raw, rawResult] at hraw
      | retryLimitError m' c' => simp [TransportResult.raw, rawResult] at hraw
      | networkError m' c' => simp [TransportResult.raw, rawResult] at hraw
      | httpError m' r' => simp [TransportResult.raw, rawResult] at hraw
  · intro bcfg bhooks env b lastRes tr h
    rw [doAttempt_user bcfg bhooks env b lastRes tr h]

/-- Environment for the C2 witness: caller signal aborted throughout. -/
def claim2UserEnv : Nat → AttemptEnv := fun _ =>
  { now := 0, sigPre := sigUser,
    result := .ok { status := 200, statusText := "OK" }, sigPost := sigUser }

/-- Environment for the C2 witness: timeout signal fired throughout. -/
def claim2TimeoutEnv : Nat → AttemptEnv := fun _ =>
  { now := 0, sigPre := sigTimeout,
    result := .ok { status := 200, statusText := "OK" }, sigPost := sigTimeout }

/-- Environment for the C2 witness: the transport rejects with a DOMException
abort after the timeout signal fires mid-attempt. -/
def claim2CatchEnv : AttemptEnv :=
  { now := 0, sigPre := sigIdle, result := .err .domAbort, sigPost := sigTimeout }

/-- Witness for the amended C2 at concrete inputs. -/
theorem claim2_timeout_vs_abort_witness :
    (clientCall none { hasOpen := false, hasClose := false } defaultShouldRetry 0 false
        { gateNow := 0, endNow := 0, attempts := claim2UserEnv } BreakerSt.init).result
      = .error (.abortError "Request was aborted by user" none) ∧
    (clientCall none { hasOpen := false, hasClose := false } defaultShouldRetry 0 false
        { gateNow := 0, endNow := 0, attempts := claim2TimeoutEnv } BreakerSt.init).result
      = .error (.timeoutError "signal timed out" none) ∧
    (claim2CatchEnv.sigPre.user = false ∧
      (claim2CatchEnv.sigPre.timeout = true ∨
        (claim2CatchEnv.sigPost.timeout = true ∧ claim2CatchEnv.sigPost.user = false))) ∧
    (doAttempt none { hasOpen := false, hasClose := false } (claim2UserEnv 0)
        BreakerSt.init none {}).result
      = .error (.abortError "Request was aborted by user" none) := by
  refine ⟨?_, ?_, ?_, ?_⟩
  · exact claim2_timeout_vs_abort.1 none { hasOpen := false, hasClose := false }
      defaultShouldRetry 0 false { gateNow := 0, endNow := 0, attempts := claim2UserEnv }
      BreakerSt.init (fun cfg h => nomatch h) (fun k => rfl)
  · exact claim2_timeout_vs_abort.2.1 none { hasOpen := false, hasClose := false }
      defaultShouldRetry 0 false
      { gateNow := 0, endNow := 0, attempts := claim2TimeoutEnv }
      BreakerSt.init (fun cfg h => nomatch h) (fun k => rfl) (fun k => rfl)
  · exact claim2_timeout_vs_abort.2.2.1 none { hasOpen := false, hasClose := false }
      claim2CatchEnv BreakerSt.init none {} "signal timed out" (some .domAbort) rfl rfl
  · exact claim2_timeout_vs_abort.2.2.2 none { hasOpen := false, hasClose := false }
      (claim2UserEnv 0) BreakerSt.init none {} rfl

/-! ### Breaker accounting through a call (for C1 and C5) -/

/-- A raw platform error is never a `RetryLimitError`. -/
theorem rawResult_not_retryLimit (e : JSError) (h : rawResult e = true) :
    e.isRetryLimit = false := by
  cases e <;> simp_all [rawResult, JSError.isRetryLimit]

/-- `recordResult` either counts a failure (incrementing the counter by one)
or resets it to zero; a failure record never fires the close hook and leaves
`lastSuccessReq` alone. -/
theorem recordResult_failures (cfg : BreakerCfg) (hooks : BreakerHooks)
    (now : Nat) (b : BreakerSt) (resp : Option Response) (err : Option JSError) :
    (recordResult cfg hooks now b resp err).st.failures
      = (if (recordResult cfg hooks now b resp err).failed then b.failures + 1 else 0) ∧
    ((recordResult cfg hooks now b resp err).failed = true →
      (recordResult cfg hooks now b resp err).st.lastSuccessReq = b.lastSuccessReq ∧
      (recordResult cfg hooks now b resp err).closeFired = false) := by
  unfold recordResult onFailure onSuccess
  dsimp only
  repeat' split
  all_goals simp_all

/-- A thrown raw error always records a qualifying failure. -/
theorem recordResult_raw_err (cfg : BreakerCfg) (hooks : BreakerHooks)
    (now : Nat) (b : BreakerSt) (e : JSError) (h : rawResult e = true) :
    (recordResult cfg hooks now b none (some e)).failed = true := by
  unfold recordResult
  simp [errQualifies, rawResult_not_retryLimit e h]

/-- Under a raw transport result, one attempt advances the failure counter by
exactly the number of qualifying failures it records, and neither touches
`lastSuccessReq` nor fires the close hook. -/
theorem doAttempt_breaker (bcfg : Option BreakerCfg) (bhooks : BreakerHooks)
    (env : AttemptEnv) (b : BreakerSt) (lastRes : Option Response) (tr : Trace)
    (hraw : env.result.raw = true) :
    (doAttempt bcfg bhooks env b lastRes tr).breaker.failures + tr.qualifyingFailures
      = b.failures + (doAttempt bcfg bhooks env b lastRes tr).trace.qualifyingFailures ∧
    (doAttempt bcfg bhooks env b lastRes tr).breaker.lastSuccessReq = b.lastSuccessReq ∧
    (doAttempt bcfg bhooks env b lastRes tr).trace.breakerCloseFires
      = tr.breakerCloseFires := by
  unfold doAttempt
  cases henv : env.result with
  | ok r =>
    cases bcfg with
    | none => repeat' split
              all_goals simp_all
    | some cfg =>
      have hrec := recordResult_failures cfg bhooks env.now b (some r) none
      repeat' split
      all_goals try simp_all [Trace.record, recordResult, errQualifies, respQualifies,
        onFailure, onSuccess]
      all_goals try omega
  | err e =>
    rw [henv] at hraw
    simp only [TransportResult.raw] at hraw
    cases bcfg with
    | none => repeat' split
              all_goals simp_all
    | some cfg =>
      have hq := recordResult_raw_err cfg bhooks env.now b e hraw
      have hrec := recordResult_failures cfg bhooks env.now b none (some e)
      rw [hq] at hrec
      simp only [if_true, forall_const, true_implies] at hrec
      repeat' split
      all_goals try simp_all [Trace.record, hq]
      all_goals try omega

/-- The retry hook and the schedule bookkeeping leave the breaker-related
counters unchanged. -/
theorem shouldRetryWithHook_breaker_fields (pred : RetryCtx → Bool)
    (retries : Nat) (ctx : RetryCtx) (tr : Trace) :
    (shouldRetryWithHook pred retries ctx tr).2.qualifyingFailures
      = tr.qualifyingFailures ∧
    (shouldRetryWithHook pred retries ctx tr).2.breakerCloseFires
      = tr.breakerCloseFires := by
  unfold shouldRetryWithHook
  dsimp only
  split <;> simp

/-- `Trace.scheduleRetry` leaves the breaker-related counters unchanged. -/
theorem scheduleRetry_breaker_fields (tr : Trace) :
    tr.scheduleRetry.qualifyingFailures = tr.qualifyingFailures ∧
    tr.scheduleRetry.breakerCloseFires = tr.breakerCloseFires := by
  simp [Trace.scheduleRetry]

/-- Breaker accounting through the whole retry loop (raw transport): the
failure counter grows by exactly the recorded qualifying failures, and
neither `lastSuccessReq` nor the close-hook counter changes. -/
theorem runRetryAux_breaker (bcfg : Option BreakerCfg) (bhooks : BreakerHooks)
    (pred : RetryCtx → Bool) (retries : Nat) (env : Nat → AttemptEnv)
    (hraw : ∀ k, ((env k).result).raw = true) :
    ∀ remaining i b lastRes tr,
      ((runRetryAux bcfg bhooks pred retries env i remaining b lastRes tr).breaker.failures
          + tr.qualifyingFailures
        = b.failures
          + (runRetryAux bcfg bhooks pred retries env i remaining b lastRes tr).trace.qualifyingFailures) ∧
      (runRetryAux bcfg bhooks pred retries env i remaining b lastRes tr).breaker.lastSuccessReq
        = b.lastSuccessReq ∧
      (runRetryAux bcfg bhooks pred retries env i remaining b lastRes tr).trace.breakerCloseFires
        = tr.breakerCloseFires := by
  intro remaining
  induction remaining with
  | zero =>
    intro i b lastRes tr
    have h := doAttempt_breaker bcfg bhooks (env i) b lastRes tr (hraw i)
    unfold runRetryAux
    generalize ha : doAttempt bcfg bhooks (env i) b lastRes tr = a
    rw [ha] at h
    cases hres : a.result with
    | ok r => simp only [hres]; exact ⟨h.1, h.2.1, h.2.2⟩
    | error e => simp only [hres]; exact ⟨h.1, h.2.1, h.2.2⟩
  | succ rem' ih =>
    intro i b lastRes tr
    have h := doAttempt_breaker bcfg bhooks (env i) b lastRes tr (hraw i)
    unfold runRetryAux
    generalize ha : doAttempt bcfg bhooks (env i) b lastRes tr = a
    rw [ha] at h
    cases hres : a.result with
    | ok r =>
      simp only [hres]
      obtain ⟨hh1, hh2⟩ := shouldRetryWithHook_breaker_fields pred retries
        { attempt := i + 1, response := some r, error := none } a.trace
      split
      · obtain ⟨hr1, hr2, hr3⟩ := ih (i + 1) a.breaker (some r)
          (shouldRetryWithHook pred retries
            { attempt := i + 1, response := some r, error := none } a.trace).2.scheduleRetry
        obtain ⟨hq, hcf⟩ := scheduleRetry_breaker_fields
          (shouldRetryWithHook pred retries
            { attempt := i + 1, response := some r, error := none } a.trace).2
        refine ⟨by omega, by rw [hr2, h.2.1], by rw [hr3, hcf, hh2, h.2.2]⟩
      · refine ⟨?_, ?_, ?_⟩
        · dsimp only
          have h1 := h.1
          omega
        · dsimp only
          exact h.2.1
        · dsimp only
          rw [hh2, h.2.2]
    | error e =>
      simp only [hres]
      obtain ⟨hh1, hh2⟩ := shouldRetryWithHook_breaker_fields pred retries
        { attempt := i + 1, response := lastRes, error := some e } a.trace
      split
      · obtain ⟨hr1, hr2, hr3⟩ := ih (i + 1) a.breaker a.lastResponse
          (shouldRetryWithHook pred retries
            { attempt := i + 1, response := lastRes, error := some e } a.trace).2.scheduleRetry
        obtain ⟨hq, hcf⟩ := scheduleRetry_breaker_fields
          (shouldRetryWithHook pred retries
            { attempt := i + 1, response := lastRes, error := some e } a.trace).2
        refine ⟨by omega, by rw [hr2, h.2.1], by rw [hr3, hcf, hh2, h.2.2]⟩
      · refine ⟨?_, ?_, ?_⟩
        · dsimp only
          have h1 := h.1
          omega
        · dsimp only
          exact h.2.1
        · dsimp only
          rw [hh2, h.2.2]

/-- The catch handler only touches hook counters. -/
theorem catchHandler_fields (throwOnHttp : Bool) (lastRes : Option Response)
    (e : JSError) (tr : Trace) :
    (catchHandler throwOnHttp lastRes e tr).2.qualifyingFailures
      = tr.qualifyingFailures ∧
    (catchHandler throwOnHttp lastRes e tr).2.breakerCloseFires
      = tr.breakerCloseFires ∧
    (catchHandler throwOnHttp lastRes e tr).2.transportCalls
      = tr.transportCalls := by
  unfold catchHandler
  repeat' split
  all_goals simp

/-- `retryWithHooks` keeps the loop's breaker state and breaker-related and
transport counters. -/
theorem retryWithHooks_fields (bcfg : Option BreakerCfg) (bhooks : BreakerHooks)
    (pred : RetryCtx → Bool) (retries : Nat) (throwOnHttp : Bool)
    (env : Nat → AttemptEnv) (b : BreakerSt) (tr : Trace) :
    (retryWithHooks bcfg bhooks pred retries throwOnHttp env b tr).breaker
      = (runRetry bcfg bhooks pred retries env b tr).breaker ∧
    (retryWithHooks bcfg bhooks pred retries throwOnHttp env b tr).trace.qualifyingFailures
      = (runRetry bcfg bhooks pred retries env b tr).trace.qualifyingFailures ∧
    (retryWithHooks bcfg bhooks pred retries throwOnHttp env b tr).trace.breakerCloseFires
      = (runRetry bcfg bhooks pred retries env b tr).trace.breakerCloseFires ∧
    (retryWithHooks bcfg bhooks pred retries throwOnHttp env b tr).trace.transportCalls
      = (runRetry bcfg bhooks pred retries env b tr).trace.transportCalls := by
  unfold retryWithHooks
  generalize runRetry bcfg bhooks pred retries env b tr = run
  cases hres : run.result with
  | ok res =>
    simp only [hres]
    split
    · obtain ⟨h1, h2, h3⟩ := catchHandler_fields throwOnHttp run.lastRes
        (.httpError (httpMessage res) res)
        { run.trace with
          afterFires := run.trace.afterFires + 1,
          onCompleteFires := run.trace.onCompleteFires + 1 }
      refine ⟨rfl, ?_, ?_, ?_⟩ <;> (dsimp only; simp_all)
    · exact ⟨rfl, by simp, by simp, by simp⟩
  | error e =>
    simp only [hres]
    obtain ⟨h1, h2, h3⟩ := catchHandler_fields throwOnHttp run.lastRes e run.trace
    refine ⟨?_, ?_, ?_, ?_⟩ <;> simp_all

/-- Field view of a gated call around `retryWithHooks` (client.ts lines
346-358): success applies the breaker's `onSuccess`, failure its `onFailure`,
and the client-level catch only adds hook firings. -/
theorem clientCall_some_fields (cfg : BreakerCfg) (bhooks : BreakerHooks)
    (pred : RetryCtx → Bool) (retries : Nat) (throwOnHttp : Bool)
    (cenv : CallEnv) (b : BreakerSt) (hgate : b.nextAttempt ≤ cenv.gateNow) :
    (∀ res,
      (retryWithHooks (some cfg) bhooks pred retries throwOnHttp cenv.attempts b
          { beforeFires := 1 }).result = .ok res →
      (clientCall (some cfg) bhooks pred retries throwOnHttp cenv b).breaker
          = (onSuccess bhooks
              (retryWithHooks (some cfg) bhooks pred retries throwOnHttp cenv.attempts b
                { beforeFires := 1 }).breaker).1 ∧
      (clientCall (some cfg) bhooks pred retries throwOnHttp cenv b).trace.qualifyingFailures
          = (retryWithHooks (some cfg) bhooks pred retries throwOnHttp cenv.attempts b
              { beforeFires := 1 }).trace.qualifyingFailures ∧
      (clientCall (some cfg) bhooks pred retries throwOnHttp cenv b).trace.transportCalls
          = (retryWithHooks (some cfg) bhooks pred retries throwOnHttp cenv.attempts b
              { beforeFires := 1 }).trace.transportCalls ∧
      (clientCall (some cfg) bhooks pred retries throwOnHttp cenv b).trace.breakerCloseFires
          = (retryWithHooks (some cfg) bhooks pred retries throwOnHttp cenv.attempts b
              { beforeFires := 1 }).trace.breakerCloseFires
            + (if (onSuccess bhooks
                (retryWithHooks (some cfg) bhooks pred retries throwOnHttp cenv.attempts b
                  { beforeFires := 1 }).breaker).2 then 1 else 0)) ∧
    (∀ e,
      (retryWithHooks (some cfg) bhooks pred retries throwOnHttp cenv.attempts b
          { beforeFires := 1 }).result = .error e →
      (clientCall (some cfg) bhooks pred retries throwOnHttp cenv b).breaker
          = (onFailure cfg bhooks cenv.endNow
              (retryWithHooks (some cfg) bhooks pred retries throwOnHttp cenv.attempts b
                { beforeFires := 1 }).breaker).1 ∧
      (clientCall (some cfg) bhooks pred retries throwOnHttp cenv b).trace.qualifyingFailures
          = (retryWithHooks (some cfg) bhooks pred retries throwOnHttp cenv.attempts b
              { beforeFires := 1 }).trace.qualifyingFailures ∧
      (clientCall (some cfg) bhooks pred retries throwOnHttp cenv b).trace.transportCalls
          = (retryWithHooks (some cfg) bhooks pred retries throwOnHttp cenv.attempts b
              { beforeFires := 1 }).trace.transportCalls ∧
      (clientCall (some cfg) bhooks pred retries throwOnHttp cenv b).trace.breakerCloseFires
          = (retryWithHooks (some cfg) bhooks pred retries throwOnHttp cenv.attempts b
              { beforeFires := 1 }).trace.breakerCloseFires) := by
  unfold clientCall
  have h : ¬ (cenv.gateNow < b.nextAttempt) := by omega
  simp only [h, if_false]
  generalize retryWithHooks (some cfg) bhooks pred retries throwOnHttp cenv.attempts b
    { beforeFires := 1 } = r
  constructor
  · intro res hres
    rw [hres]
    simp
  · intro e hres
    rw [hres]
    cases e <;> simp

/-- When no pre-attempt signal is aborted, the first loop iteration reaches
the transport, so the loop performs at least one transport call. -/
theorem runRetry_first_transport (bcfg : Option BreakerCfg)
    (bhooks : BreakerHooks) (pred : RetryCtx → Bool) (retries : Nat)
    (env : Nat → AttemptEnv) (b : BreakerSt) (tr : Trace)
    (h0 : (env 0).sigPre = sigIdle) :
    tr.transportCalls + 1
      ≤ (runRetry bcfg bhooks pred retries env b tr).trace.transportCalls := by
  have hu : (env 0).sigPre.user = false := by rw [h0]; rfl
  have ht : (env 0).sigPre.timeout = false := by rw [h0]; rfl
  have htr : (env 0).sigPre.transformed = false := by rw [h0]; rfl
  have hT := (doAttempt_reaches_transport bcfg bhooks (env 0) b none tr hu ht htr).2.2
  unfold runRetry runRetryAux
  generalize ha : doAttempt bcfg bhooks (env 0) b none tr = a
  rw [ha] at hT
  cases hres : a.result with
  | ok r =>
    simp only [hres]
    split
    · dsimp only
      omega
    · rename_i rem'
      simp only [Nat.succ_eq_add_one]
      have hs2 := (shouldRetryWithHook_spec pred (rem' + 1)
        { attempt := 0 + 1, response := some r, error := none } a.trace).2.1
      by_cases hcond : (shouldRetryWithHook pred (rem' + 1)
          { attempt := 0 + 1, response := some r, error := none } a.trace).1 = true
      · rw [if_pos hcond]
        have hrec := (runRetryAux_counters bcfg bhooks pred (rem' + 1) env rem' (0 + 1)
          a.breaker (some r)
          (shouldRetryWithHook pred (rem' + 1)
            { attempt := 0 + 1, response := some r, error := none } a.trace).2.scheduleRetry
          (by omega)).2.1
        have hf1 := (scheduleRetry_fields
          (shouldRetryWithHook pred (rem' + 1)
            { attempt := 0 + 1, response := some r, error := none } a.trace).2).1
        omega
      · rw [if_neg hcond]
        dsimp only
        omega
  | error e =>
    simp only [hres]
    split
    · dsimp only
      omega
    · rename_i rem'
      simp only [Nat.succ_eq_add_one]
      have hs2 := (shouldRetryWithHook_spec pred (rem' + 1)
        { attempt := 0 + 1, response := none, error := some e } a.trace).2.1
      by_cases hcond : (shouldRetryWithHook pred (rem' + 1)
          { attempt := 0 + 1, response := none, error := some e } a.trace).1 = true
      · rw [if_pos hcond]
        have hrec := (runRetryAux_counters bcfg bhooks pred (rem' + 1) env rem' (0 + 1)
          a.breaker a.lastResponse
          (shouldRetryWithHook pred (rem' + 1)
            { attempt := 0 + 1, response := none, error := some e } a.trace).2.scheduleRetry
          (by omega)).2.1
        have hf1 := (scheduleRetry_fields
          (shouldRetryWithHook pred (rem' + 1)
            { attempt := 0 + 1, response := none, error := some e } a.trace).2).1
        omega
      · rw [if_neg hcond]
        dsimp only
        omega

/-! ### Claim C1: circuit-breaker opening, gating and reset -/

/-- Transport for the C1 counterexample and witness: a single unnamed thrown
error, clock at 5. -/
def claim1CexEnv : Nat → AttemptEnv := fun _ =>
  { now := 5, sigPre := sigIdle, result := .err (.generic (some "boom")),
    sigPost := sigIdle }

/-- Counterexample to C1 as stated: with `threshold = 2` and `retries = 0`,
one failing call records exactly one qualifying failure (via `recordResult`),
yet the breaker is open after the call — `invoke`'s catch calls `onFailure` a
second time (client.ts line 347 → error.ts line 169), so the breaker opens
before the Nth recorded qualifying failure. -/
theorem claim1_counterexample :
    (clientCall (some { threshold := 2, reset := 100 })
        { hasOpen := true, hasClose := true } defaultShouldRetry 0 false
        { gateNow := 0, endNow := 5, attempts := claim1CexEnv }
        BreakerSt.init).trace.qualifyingFailures = 1 ∧
    (clientCall (some { threshold := 2, reset := 100 })
        { hasOpen := true, hasClose := true } defaultShouldRetry 0 false
        { gateNow := 0, endNow := 5, attempts := claim1CexEnv }
        BreakerSt.init).breaker.isOpen = true := by
  exact ⟨rfl, rfl⟩

/-- Claim C1 (amended): (a) `onFailure` opens the breaker exactly when the
counter reaches the threshold (each failed call contributes one count per
recorded qualifying failure plus one more from the `invoke` catch, so the
breaker can open before the Nth *recorded* qualifying failure); (b) over a
failing gated call with a raw transport, the counter grows by the recorded
qualifying failures plus one; (c) while open and before the reset deadline
every call rejects with `CircuitOpenError` without invoking the transport;
(d) once the deadline has passed (and no signal is pre-aborted) the next call
reaches the transport. -/
theorem claim1_circuit_breaker :
    (∀ cfg hooks now b,
      (onFailure cfg hooks now b).1.isOpen
        = (b.isOpen || decide (cfg.threshold ≤ b.failures + 1)) ∧
      (onFailure cfg hooks now b).1.failures = b.failures + 1 ∧
      (cfg.threshold ≤ b.failures + 1 →
        (onFailure cfg hooks now b).1.nextAttempt = now + cfg.reset)) ∧
    (∀ cfg bhooks pred retries throwOnHttp cenv b e,
      (∀ k, ((cenv.attempts k).result).raw = true) →
      b.nextAttempt ≤ cenv.gateNow →
      (clientCall (some cfg) bhooks pred retries throwOnHttp cenv b).result = .error e →
      (clientCall (some cfg) bhooks pred retries throwOnHttp cenv b).breaker.failures
        = b.failures
          + (clientCall (some cfg) bhooks pred retries throwOnHttp cenv b).trace.qualifyingFailures
          + 1) ∧
    (∀ cfg bhooks pred retries throwOnHttp cenv b,
      b.isOpen = true → cenv.gateNow < b.nextAttempt →
      (clientCall (some cfg) bhooks pred retries throwOnHttp cenv b).result
        = .error (.circuitOpenError "Circuit is open") ∧
      (clientCall (some cfg) bhooks pred retries throwOnHttp cenv b).trace.transportCalls
        = 0) ∧
    (∀ cfg bhooks pred retries throwOnHttp cenv b,
      b.nextAttempt ≤ cenv.gateNow →
      (cenv.attempts 0).sigPre = sigIdle →
      1 ≤ (clientCall (some cfg) bhooks pred retries throwOnHttp cenv b).trace.transportCalls) := by
  refine ⟨?_, ?_, ?_, ?_⟩
  · intro cfg hooks now b
    unfold onFailure
    dsimp only
    split <;> rename_i hcond <;> simp_all
  · intro cfg bhooks pred retries throwOnHttp cenv b e hraw hgate hres
    have hpass := clientCall_gate_passes (some cfg) bhooks pred retries throwOnHttp cenv b
      (fun c hc => by cases hc; exact hgate)
    have hre : (retryWithHooks (some cfg) bhooks pred retries throwOnHttp cenv.attempts b
        { beforeFires := 1 }).result = .error e := by rw [← hpass]; exact hres
    have hfld := (clientCall_some_fields cfg bhooks pred retries throwOnHttp cenv b hgate).2
      e hre
    have hrwf := retryWithHooks_fields (some cfg) bhooks pred retries throwOnHttp
      cenv.attempts b { beforeFires := 1 }
    have hloop :
        (runRetry (some cfg) bhooks pred retries cenv.attempts b
            { beforeFires := 1 }).breaker.failures
            + ({ beforeFires := 1 } : Trace).qualifyingFailures
          = b.failures
            + (runRetry (some cfg) bhooks pred retries cenv.attempts b
                { beforeFires := 1 }).trace.qualifyingFailures :=
      (runRetryAux_breaker (some cfg) bhooks pred retries cenv.attempts hraw
        retries 0 b none { beforeFires := 1 }).1
    have hof : (onFailure cfg bhooks cenv.endNow
        (retryWithHooks (some cfg) bhooks pred retries throwOnHttp cenv.attempts b
          { beforeFires := 1 }).breaker).1.failures
        = (retryWithHooks (some cfg) bhooks pred retries throwOnHttp cenv.attempts b
          { beforeFires := 1 }).breaker.failures + 1 := by
      unfold onFailure
      dsimp only
      split <;> rfl
    have hq0 : ({ beforeFires := 1 } : Trace).qualifyingFailures = 0 := rfl
    rw [hfld.1, hof, hrwf.1, hfld.2.1, hrwf.2.1]
    omega
  · intro cfg bhooks pred retries throwOnHttp cenv b hopen hlt
    unfold clientCall
    dsimp only
    rw [if_pos hlt]
    exact ⟨rfl, rfl⟩
  · intro cfg bhooks pred retries throwOnHttp cenv b hgate h0
    have hfld := clientCall_some_fields cfg bhooks pred retries throwOnHttp cenv b hgate
    have hrwf := retryWithHooks_fields (some cfg) bhooks pred retries throwOnHttp
      cenv.attempts b { beforeFires := 1 }
    have hfirst := runRetry_first_transport (some cfg) bhooks pred retries cenv.attempts b
      { beforeFires := 1 } h0
    have ht0 : ({ beforeFires := 1 } : Trace).transportCalls = 0 := rfl
    cases hres : (retryWithHooks (some cfg) bhooks pred retries throwOnHttp cenv.attempts b
        { beforeFires := 1 }).result with
    | ok res =>
      have h := (hfld.1 res hres).2.2.1
      rw [h, hrwf.2.2.2]
      omega
    | error e =>
      have h := (hfld.2 e hres).2.2.1
      rw [h, hrwf.2.2.2]
      omega

/-- A breaker state that is open with deadline 100 (for the C1 witness). -/
def claim1OpenSt : BreakerSt :=
  { failures := 2, nextAttempt := 100, isOpen := true,
    lastOpenReq := true, lastSuccessReq := false }

/-- Witness for the amended C1 at concrete inputs. -/
theorem claim1_circuit_breaker_witness :
    ((onFailure { threshold := 1, reset := 100 } { hasOpen := true, hasClose := true }
        5 BreakerSt.init).1.isOpen
      = (BreakerSt.init.isOpen || decide ((1 : Nat) ≤ BreakerSt.init.failures + 1)) ∧
     (onFailure { threshold := 1, reset := 100 } { hasOpen := true, hasClose := true }
        5 BreakerSt.init).1.failures = BreakerSt.init.failures + 1 ∧
     (onFailure { threshold := 1, reset := 100 } { hasOpen := true, hasClose := true }
        5 BreakerSt.init).1.nextAttempt = 5 + 100) ∧
    (clientCall (some { threshold := 2, reset := 100 })
        { hasOpen := true, hasClose := true } defaultShouldRetry 0 false
        { gateNow := 0, endNow := 5, attempts := claim1CexEnv }
        BreakerSt.init).breaker.failures
      = BreakerSt.init.failures
        + (clientCall (some { threshold := 2, reset := 100 })
            { hasOpen := true, hasClose := true } defaultShouldRetry 0 false
            { gateNow := 0, endNow := 5, attempts := claim1CexEnv }
            BreakerSt.init).trace.qualifyingFailures
        + 1 ∧
    ((clientCall (some { threshold := 2, reset := 100 })
        { hasOpen := true, hasClose := true } defaultShouldRetry 0 false
        { gateNow := 50, endNow := 50, attempts := claim1CexEnv }
        claim1OpenSt).result = .error (.circuitOpenError "Circuit is open") ∧
     (clientCall (some { threshold := 2, reset := 100 })
        { hasOpen := true, hasClose := true } defaultShouldRetry 0 false
        { gateNow := 50, endNow := 50, attempts := claim1CexEnv }
        claim1OpenSt).trace.transportCalls = 0) ∧
    1 ≤ (clientCall (some { threshold := 2, reset := 100 })
        { hasOpen := true, hasClose := true } defaultShouldRetry 0 false
        { gateNow := 100, endNow := 100, attempts := claim1CexEnv }
        claim1OpenSt).trace.transportCalls := by
  refine ⟨?_, ?_, ?_, ?_⟩
  · have h := claim1_circuit_breaker.1 { threshold := 1, reset := 100 }
      { hasOpen := true, hasClose := true } 5 BreakerSt.init
    exact ⟨h.1, h.2.1, h.2.2 (by decide)⟩
  · exact claim1_circuit_breaker.2.1 { threshold := 2, reset := 100 }
      { hasOpen := true, hasClose := true } defaultShouldRetry 0 false
      { gateNow := 0, endNow := 5, attempts := claim1CexEnv } BreakerSt.init
      (.retryLimitError "boom" (some (.generic (some "boom"))))
      (fun k => rfl) (by decide) rfl
  · exact claim1_circuit_breaker.2.2.1 { threshold := 2, reset := 100 }
      { hasOpen := true, hasClose := true } defaultShouldRetry 0 false
      { gateNow := 50, endNow := 50, attempts := claim1CexEnv } claim1OpenSt
      rfl (by decide)
  · exact claim1_circuit_breaker.2.2.2 { threshold := 2, reset := 100 }
      { hasOpen := true, hasClose := true } defaultShouldRetry 0 false
      { gateNow := 100, endNow := 100, attempts := claim1CexEnv } claim1OpenSt
      (by decide) rfl

/-! ### Claim C5: the open flag, success reset, and the close notification -/

/-- Transport for the C5 scenarios: one unnamed failure at time 0. -/
def claim5FailEnv : Nat → AttemptEnv := fun _ =>
  { now := 0, sigPre := sigIdle, result := .err (.generic (some "down")),
    sigPost := sigIdle }

/-- Transport for the C5 scenarios: a 200 response at time 200. -/
def claim5OkEnv : Nat → AttemptEnv := fun _ =>
  { now := 200, sigPre := sigIdle, result := .ok { status := 200, statusText := "OK" },
    sigPost := sigIdle }

/-- Counterexample to C5 as stated: with `threshold = 1`, `reset = 100` and a
failing call at time 0, the breaker's flag is still open at observation time
200 ≥ the deadline 100 (the claim's iff demands it be closed once the
deadline has elapsed — the code clears the flag only on success); moreover a
subsequent successful call at time 200 flips the flag closed but fires
`onCircuitClose` zero times, not exactly once, because the client never
records a success request with the breaker. -/
theorem claim5_counterexample :
    (clientCall (some { threshold := 1, reset := 100 })
        { hasOpen := true, hasClose := true } defaultShouldRetry 0 false
        { gateNow := 0, endNow := 0, attempts := claim5FailEnv }
        BreakerSt.init).breaker.isOpen = true ∧
    (clientCall (some { threshold := 1, reset := 100 })
        { hasOpen := true, hasClose := true } defaultShouldRetry 0 false
        { gateNow := 0, endNow := 0, attempts := claim5FailEnv }
        BreakerSt.init).breaker.nextAttempt = 100 ∧
    circuitOpen (some { threshold := 1, reset := 100 })
      (clientCall (some { threshold := 1, reset := 100 })
        { hasOpen := true, hasClose := true } defaultShouldRetry 0 false
        { gateNow := 0, endNow := 0, attempts := claim5FailEnv }
        BreakerSt.init).breaker = true ∧
    (clientCall (some { threshold := 1, reset := 100 })
        { hasOpen := true, hasClose := true } defaultShouldRetry 0 false
        { gateNow := 200, endNow := 200, attempts := claim5OkEnv }
        (clientCall (some { threshold := 1, reset := 100 })
          { hasOpen := true, hasClose := true } defaultShouldRetry 0 false
          { gateNow := 0, endNow := 0, attempts := claim5FailEnv }
          BreakerSt.init).breaker).trace.breakerCloseFires = 0 ∧
    (clientCall (some { threshold := 1, reset := 100 })
        { hasOpen := true, hasClose := true } defaultShouldRetry 0 false
        { gateNow := 200, endNow := 200, attempts := claim5OkEnv }
        (clientCall (some { threshold := 1, reset := 100 })
          { hasOpen := true, hasClose := true } defaultShouldRetry 0 false
          { gateNow := 0, endNow := 0, attempts := claim5FailEnv }
          BreakerSt.init).breaker).breaker.isOpen = false := by
  exact ⟨rfl, rfl, rfl, rfl, rfl⟩

/-- Claim C5 (amended): `circuitOpen` is the breaker's flag (false without a
breaker); the flag is set exactly when the counter reaches the threshold
(claim C1 part (a)) and cleared only by a successful invocation — it
persists past the reset deadline; a single success resets the counter to
zero and flips the flag closed, but fires `onCircuitClose` zero times (the
client never records a success request with the breaker, so the notification
cannot fire unless the transport itself throws a `RetryLimitError`). -/
theorem claim5_flag_and_close :
    (∀ b, circuitOpen none b = false) ∧
    (∀ cfg b, circuitOpen (some cfg) b = b.isOpen) ∧
    (∀ hooks b, (onSuccess hooks b).1.failures = 0 ∧
      (onSuccess hooks b).1.isOpen = false) ∧
    (∀ cfg bhooks pred retries throwOnHttp cenv b res,
      (∀ k, ((cenv.attempts k).result).raw = true) →
      b.nextAttempt ≤ cenv.gateNow →
      b.lastSuccessReq = false →
      (clientCall (some cfg) bhooks pred retries throwOnHttp cenv b).result = .ok res →
      (clientCall (some cfg) bhooks pred retries throwOnHttp cenv b).breaker.failures = 0 ∧
      (clientCall (some cfg) bhooks pred retries throwOnHttp cenv b).breaker.isOpen = false ∧
      (clientCall (some cfg) bhooks pred retries throwOnHttp cenv b).trace.breakerCloseFires
        = 0) := by
  refine ⟨fun b => rfl, fun cfg b => rfl, ?_, ?_⟩
  · intro hooks b
    unfold onSuccess
    try dsimp only
    split
    · exact ⟨rfl, rfl⟩
    · rename_i hb
      exact ⟨rfl, by simpa using hb⟩
  · intro cfg bhooks pred retries throwOnHttp cenv b res hraw hgate hls hres
    have hpass := clientCall_gate_passes (some cfg) bhooks pred retries throwOnHttp cenv b
      (fun c hc => by cases hc; exact hgate)
    have hre : (retryWithHooks (some cfg) bhooks pred retries throwOnHttp cenv.attempts b
        { beforeFires := 1 }).result = .ok res := by rw [← hpass]; exact hres
    have hfld := (clientCall_some_fields cfg bhooks pred retries throwOnHttp cenv b hgate).1
      res hre
    have hrwf := retryWithHooks_fields (some cfg) bhooks pred retries throwOnHttp
      cenv.attempts b { beforeFires := 1 }
    have hloop1 :
        (runRetry (some cfg) bhooks pred retries cenv.attempts b
            { beforeFires := 1 }).breaker.lastSuccessReq = b.lastSuccessReq :=
      (runRetryAux_breaker (some cfg) bhooks pred retries cenv.attempts hraw
        retries 0 b none { beforeFires := 1 }).2.1
    have hloop2 :
        (runRetry (some cfg) bhooks pred retries cenv.attempts b
            { beforeFires := 1 }).trace.breakerCloseFires
          = ({ beforeFires := 1 } : Trace).breakerCloseFires :=
      (runRetryAux_breaker (some cfg) bhooks pred retries cenv.attempts hraw
        retries 0 b none { beforeFires := 1 }).2.2
    refine ⟨?_, ?_, ?_⟩
    · rw [hfld.1]
      unfold onSuccess
      try dsimp only
      split <;> rfl
    · rw [hfld.1]
      unfold onSuccess
      try dsimp only
      split
      · rfl
      · rename_i hb
        simpa using hb
    · rw [hfld.2.2.2]
      have hc1 : (retryWithHooks (some cfg) bhooks pred retries throwOnHttp cenv.attempts b
          { beforeFires := 1 }).trace.breakerCloseFires = 0 := by
        rw [hrwf.2.2.1, hloop2]
      have hl : (retryWithHooks (some cfg) bhooks pred retries throwOnHttp cenv.attempts b
          { beforeFires := 1 }).breaker.lastSuccessReq = false := by
        rw [hrwf.1, hloop1, hls]
      have hc2 : (onSuccess bhooks
          (retryWithHooks (some cfg) bhooks pred retries throwOnHttp cenv.attempts b
            { beforeFires := 1 }).breaker).2 = false := by
        unfold onSuccess
        try dsimp only
        split <;> simp [hl]
      rw [hc1, hc2]
      simp

/-- A breaker state open with deadline 100 (for the C5 witness). -/
def claim5OpenSt : BreakerSt :=
  { failures := 1, nextAttempt := 100, isOpen := true,
    lastOpenReq := true, lastSuccessReq := false }

/-- Witness for the amended C5 at a concrete input: a successful call at
time 200 through an open breaker (deadline 100) resets the counter, closes
the flag, and fires no close notification. -/
theorem claim5_flag_and_close_witness :
    (clientCall (some { threshold := 1, reset := 100 })
        { hasOpen := true, hasClose := true } defaultShouldRetry 0 false
        { gateNow := 200, endNow := 200, attempts := claim5OkEnv }
        claim5OpenSt).breaker.failures = 0 ∧
    (clientCall (some { threshold := 1, reset := 100 })
        { hasOpen := true, hasClose := true } defaultShouldRetry 0 false
        { gateNow := 200, endNow := 200, attempts := claim5OkEnv }
        claim5OpenSt).breaker.isOpen = false ∧
    (clientCall (some { threshold := 1, reset := 100 })
        { hasOpen := true, hasClose := true } defaultShouldRetry 0 false
        { gateNow := 200, endNow := 200, attempts := claim5OkEnv }
        claim5OpenSt).trace.breakerCloseFires = 0 := by
  exact claim5_flag_and_close.2.2.2 { threshold := 1, reset := 100 }
    { hasOpen := true, hasClose := true } defaultShouldRetry 0 false
    { gateNow := 200, endNow := 200, attempts := claim5OkEnv } claim5OpenSt
    { status := 200, statusText := "OK" }
    (fun k => rfl) (by decide) rfl rfl

/-! ### Claim C8: `abortAll` and the per-call controller -/

/-- Identity of the abort signals around one client: the caller's signal, the
request's own (transform-derived) signal, the timeout signal, and the
per-call `AbortController`'s signal stored in the pending record. -/
inductive SignalId where
  | user : SignalId
  | transformedSig : SignalId
  | timeoutSig : SignalId
  | controllerSig (call : Nat) : SignalId
deriving Repr, DecidableEq

/-- The signals pushed into the `signals` array (client.ts lines 160-165):
the caller's signal when present, always the request's own signal, and the
timeout signal when the effective timeout is positive.  The per-call
controller created on lines 169/177 is never pushed. -/
def signalsList (hasUser : Bool) (hasTimeout : Bool) : List SignalId :=
  (if hasUser then [SignalId.user] else []) ++ [SignalId.transformedSig]
    ++ (if hasTimeout then [SignalId.timeoutSig] else [])

/-- The effective signal handed to the transport (client.ts lines 167-178):
`signals[0]` when only one was pushed, else `AbortSignal.any(signals)` — in
both cases aborted exactly when some pushed signal is aborted.  `v` is the
aborted-state of every signal. -/
def combinedAborted (hasUser hasTimeout : Bool) (v : SignalId → Bool) : Bool :=
  (signalsList hasUser hasTimeout).any v

/-- `abortAll` (client.ts lines 61-65): abort the controller of every pending
record; every other signal keeps its state. -/
def abortAllSignals (pending : List Nat) (v : SignalId → Bool) : SignalId → Bool
  | .controllerSig c => if c ∈ pending then true else v (.controllerSig c)
  | s => v s

/-- Claim C8 (code bug): `abortAll` does abort every pending record's
controller, but that controller's signal is never among the signals combined
into the effective signal, so the effective signal of every in-flight call —
for any presence of caller/timeout signals — is unchanged, and the in-flight
transport invocation is not cancelled.  In particular a lone pending call
with no caller signal and no timeout keeps an unaborted effective signal
after `abortAll()`. -/
theorem claim8_abortAll :
    (∀ (pending : List Nat) (v : SignalId → Bool), pending.all
        (fun c => abortAllSignals pending v (SignalId.controllerSig c)) = true) ∧
    (∀ (pending : List Nat) (v : SignalId → Bool) hasUser hasTimeout,
      combinedAborted hasUser hasTimeout (abortAllSignals pending v)
        = combinedAborted hasUser hasTimeout v) ∧
    combinedAborted false false
      (abortAllSignals [0] (fun _ => false)) = false := by
  refine ⟨?_, ?_, rfl⟩
  · intro pending v
    rw [List.all_eq_true]
    intro c hc
    simp [abortAllSignals, hc]
  · intro pending v hasUser hasTimeout
    cases hasUser <;> cases hasTimeout <;>
      simp [combinedAborted, signalsList, abortAllSignals]

/-! ### Dedupe store and pending registry (claims C4, C7, C10)

The per-call bookkeeping of client.ts interleaves across awaits, but each of
its three critical sections is synchronous, so a call is modelled as up to
three atomic events:

* `start c key` — the dedupe block (client.ts lines 71-118): compute the key;
  if a live entry exists, return its shared promise (the call is a joiner and
  does nothing else); otherwise create the placeholder promise and store it.
* `register c` — the section from the hook pipeline through pushing the
  pending record (lines 120-382): run `transformRequest`/`before` and the
  orchestration (the underlying transport run starts), wire the placeholder
  to the actual promise, replace the map entry with the actual promise
  (keeping the stored resolvers), and push the pending record.
* `settle c o` — the actual promise settles with outcome `o`: the wired
  placeholder settles identically (its resolvers are settled-once), and the
  `finally` (lines 384-397) removes the pending record and deletes the map
  entry if it still holds this call's actual promise.

Promises are identified by numbers allocated from a counter; `pout` gives the
outcome a promise has settled with, if any. -/

/-- Outcome a shared promise settles with. -/
inductive Outcome where
  | success (r : Response)
  | failure (e : JSError)
deriving Repr

/-- Per-call bookkeeping. -/
structure CallRec where
  key : Option String
  isJoiner : Bool := false
  joinedPid : Nat := 0
  owner : Nat := 0
  placeholder : Option Nat := none
  actual : Option Nat := none
  registered : Bool := false
  settled : Bool := false
  outcome : Option Outcome := none
deriving Repr

/-- State of one client's dedupe map, pending registry and promises. -/
structure DState where
  calls : Nat → Option CallRec
  started : List Nat
  dmap : List (String × Nat × Nat)
  pending : List Nat
  pout : Nat → Option Outcome
  nextPid : Nat
  runs : List Nat
  hookRuns : List Nat

/-- The client's initial state. -/
def DState.init : DState :=
  { calls := fun _ => none, started := [], dmap := [], pending := [],
    pout := fun _ => none, nextPid := 0, runs := [], hookRuns := [] }

/-- Events (see the section comment). -/
inductive DEvent where
  | start (c : Nat) (key : Option String)
  | register (c : Nat)
  | settle (c : Nat) (o : Outcome)

/-- Settling a call: the wired placeholder and the actual promise both settle
with the call's outcome, settled-once (an already-settled promise keeps its
value). -/
def settlePout (s : DState) (rec : CallRec) (o : Outcome) : Nat → Option Outcome :=
  let pout1 : Nat → Option Outcome := fun q =>
    if rec.actual = some q then
      (if (s.pout q).isSome then s.pout q else some o)
    else s.pout q
  fun q =>
    if rec.placeholder = some q then
      (if (pout1 q).isSome then pout1 q else some o)
    else pout1 q

/-- Settling a call: the dedupe entry is deleted only if it still holds this
call's actual promise (client.ts lines 389-394). -/
def settleDmap (s : DState) (rec : CallRec) : List (String × Nat × Nat) :=
  match rec.key with
  | some k =>
    match s.dmap.lookup k with
    | some po =>
      if rec.actual = some po.1 then
        s.dmap.eraseP (fun p => p.1 == k)
      else s.dmap
    | none => s.dmap
  | none => s.dmap

/-- One atomic step.  Events that do not correspond to the program order of a
real call (an unknown call registering, a joiner settling, …) are no-ops. -/
def dstep (s : DState) : DEvent → DState
  | .start c key =>
    if (s.calls c).isSome then s
    else
      match key with
      | some k =>
        match s.dmap.lookup k with
        | some po =>
          { s with
            calls := fun c' => if c' = c then
                some { key := key, isJoiner := true, joinedPid := po.1,
                       owner := po.2 }
              else s.calls c',
            started := s.started ++ [c] }
        | none =>
          { s with
            calls := fun c' => if c' = c then
                some { key := key, placeholder := some s.nextPid }
              else s.calls c',
            started := s.started ++ [c],
            dmap := (k, s.nextPid, c) :: s.dmap,
            nextPid := s.nextPid + 1 }
      | none =>
        { s with
          calls := fun c' => if c' = c then some { key := none } else s.calls c',
          started := s.started ++ [c] }
  | .register c =>
    match s.calls c with
    | some rec =>
      if rec.isJoiner || rec.registered || rec.settled then s
      else
        { s with
          calls := fun c' => if c' = c then
              some { rec with registered := true, actual := some s.nextPid }
            else s.calls c',
          dmap :=
            match rec.key with
            | some k => s.dmap.map (fun p =>
                if p.1 = k then (p.1, s.nextPid, p.2.2) else p)
            | none => s.dmap,
          pending := s.pending ++ [c],
          nextPid := s.nextPid + 1,
          runs := c :: s.runs,
          hookRuns := c :: s.hookRuns }
    | none => s
  | .settle c o =>
    match s.calls c with
    | some rec =>
      if rec.isJoiner || !rec.registered || rec.settled then s
      else
        { s with
          calls := fun c' => if c' = c then
              some { rec with settled := true, outcome := some o }
            else s.calls c',
          dmap := settleDmap s rec,
          pending := s.pending.erase c,
          pout := settlePout s rec o }
    | none => s

/-- Run a trace of events from the initial state. -/
def dedupeRun (evs : List DEvent) : DState :=
  evs.foldl dstep DState.init

/-- Whether a started call has settled, as its caller observes it: a joiner's
returned promise has an outcome, or a non-joiner's own run has settled. -/
def callSettled (s : DState) (c : Nat) : Bool :=
  match s.calls c with
  | some rec => if rec.isJoiner then (s.pout rec.joinedPid).isSome else rec.settled
  | none => true

/-- Number of in-flight top-level calls at an observation point. -/
def inFlightCount (s : DState) : Nat :=
  (s.started.filter (fun c => !callSettled s c)).length

/-! ### Association-list facts used for the dedupe map -/

section AList

variable {β : Type}

theorem lookup_cons_unfold (k k' : String) (v : β) (l : List (String × β)) :
    ((k', v) :: l).lookup k = if k = k' then some v else l.lookup k := by
  by_cases h : k = k'
  · simp [List.lookup, h]
  · have hb : (k == k') = false := by simp [h]
    simp [List.lookup, hb, h]

theorem lookup_none_notin (k : String) (l : List (String × β))
    (h : l.lookup k = none) : k ∉ l.map (fun p => p.1) := by
  induction l with
  | nil => simp
  | cons p t ih =>
    obtain ⟨k', v⟩ := p
    rw [lookup_cons_unfold] at h
    by_cases hk : k = k'
    · simp [hk] at h
    · rw [if_neg hk] at h
      simp only [List.map, List.mem_cons]
      rintro (hm | hm)
      · exact hk hm
      · exact ih h hm

theorem lookup_mem {k : String} {v : β} {l : List (String × β)}
    (h : l.lookup k = some v) : (k, v) ∈ l := by
  induction l with
  | nil => simp [List.lookup] at h
  | cons p t ih =>
    obtain ⟨k', w⟩ := p
    rw [lookup_cons_unfold] at h
    by_cases hk : k = k'
    · rw [if_pos hk] at h
      simp only [Option.some.injEq] at h
      simp [hk, h]
    · rw [if_neg hk] at h
      exact List.mem_cons_of_mem _ (ih h)

theorem mem_lookup_of_nodup {k : String} {v : β} {l : List (String × β)}
    (hn : (l.map (fun p => p.1)).Nodup) (h : (k, v) ∈ l) :
    l.lookup k = some v := by
  induction l with
  | nil => simp at h
  | cons p t ih =>
    obtain ⟨k', w⟩ := p
    simp only [List.map, List.nodup_cons] at hn
    rw [lookup_cons_unfold]
    rcases List.mem_cons.mp h with h1 | h1
    · rw [if_pos (congrArg Prod.fst h1)]
      rw [show v = w from congrArg Prod.snd h1]
    · have hk : k ≠ k' := by
        intro he
        subst he
        exact hn.1 (List.mem_map_of_mem (fun q => q.1) h1)
      rw [if_neg hk]
      exact ih hn.2 h1

theorem lookup_cons_ne {k k' : String} {v : β} {l : List (String × β)}
    (h : k ≠ k') : ((k', v) :: l).lookup k = l.lookup k := by
  rw [lookup_cons_unfold, if_neg h]

theorem lookup_map_replace_ne {k k' : String} (f : String × β → String × β)
    (hf : ∀ p, (f p).1 = p.1) (l : List (String × β)) (h : k ≠ k')
    (hk : ∀ p, p.1 ≠ k' → f p = p) :
    (l.map f).lookup k = l.lookup k := by
  induction l with
  | nil => simp
  | cons p t ih =>
    obtain ⟨kp, vp⟩ := p
    by_cases hp : kp = k'
    · have h1 : (f (kp, vp)).1 = kp := hf (kp, vp)
      have hkp : k ≠ kp := by rw [hp]; exact h
      rw [List.map_cons]
      rcases hfe : f (kp, vp) with ⟨fk, fv⟩
      rw [hfe] at h1
      simp only at h1
      subst h1
      rw [lookup_cons_ne hkp, lookup_cons_ne hkp]
      exact ih
    · rw [List.map_cons, hk (kp, vp) hp]
      by_cases hkp : k = kp
      · subst hkp
        rw [lookup_cons_unfold, lookup_cons_unfold, if_pos rfl, if_pos rfl]
      · rw [lookup_cons_ne hkp, lookup_cons_ne hkp]
        exact ih

theorem lookup_eraseP_ne {k k' : String} {l : List (String × β)} (h : k ≠ k') :
    (l.eraseP (fun p => p.1 == k')).lookup k = l.lookup k := by
  induction l with
  | nil => simp
  | cons p t ih =>
    obtain ⟨kp, vp⟩ := p
    by_cases hp : kp = k'
    · rw [List.eraseP_cons_of_pos (by simp [hp])]
      rw [lookup_cons_ne (by rw [hp]; exact h)]
    · rw [List.eraseP_cons_of_neg (by simp [hp])]
      by_cases hkp : k = kp
      · subst hkp
        rw [lookup_cons_unfold, lookup_cons_unfold, if_pos rfl, if_pos rfl]
      · rw [lookup_cons_ne hkp, lookup_cons_ne hkp]
        exact ih

theorem lookup_map_keyfix (f : String × β → String × β)
    (hf : ∀ p, (f p).1 = p.1) (l : List (String × β)) (k : String) :
    (l.map f).lookup k = Option.map (fun v => (f (k, v)).2) (l.lookup k) := by
  induction l with
  | nil => simp
  | cons p t ih =>
    obtain ⟨pk, v⟩ := p
    rcases hfe : f (pk, v) with ⟨fk, fv⟩
    have h1 : fk = pk := by
      have h2 := hf (pk, v)
      rw [hfe] at h2
      exact h2
    subst h1
    by_cases hk : k = fk
    · subst hk
      rw [List.map_cons, hfe, lookup_cons_unfold, lookup_cons_unfold,
        if_pos rfl, if_pos rfl]
      simp [hfe]
    · rw [List.map_cons, hfe, lookup_cons_ne hk, lookup_cons_ne hk]
      exact ih

theorem notin_eraseP_self {l : List (String × β)}
    (hn : (l.map (fun p => p.1)).Nodup) (k : String) (v : β) :
    (k, v) ∉ l.eraseP (fun p => p.1 == k) := by
  induction l with
  | nil => simp
  | cons p t ih =>
    obtain ⟨pk, w⟩ := p
    simp only [List.map, List.nodup_cons] at hn
    by_cases hp : pk = k
    · rw [List.eraseP_cons_of_pos (by simp [hp])]
      intro hm
      have h2 : k ∈ t.map (fun q => q.1) := List.mem_map_of_mem _ hm
      rw [← hp] at h2
      exact hn.1 h2
    · rw [List.eraseP_cons_of_neg (by simp [hp])]
      intro hm
      rcases List.mem_cons.mp hm with he | hm2
      · exact hp (congrArg (fun q => q.1) he).symm
      · exact ih hn.2 hm2

theorem keys_eraseP_sublist (q : String × β → Bool) (l : List (String × β)) :
    ((l.eraseP q).map (fun p => p.1)).Sublist (l.map (fun p => p.1)) :=
  (List.eraseP_sublist l).map (fun p => p.1)

end AList

/-- Invariant bundle for the dedupe machine, preserved by every `dstep`. -/
structure DInv (s : DState) : Prop where
  keysNodup : (s.dmap.map (fun p => p.1)).Nodup
  pendNodup : s.pending.Nodup
  runsNodup : s.runs.Nodup
  hookNodup : s.hookRuns.Nodup
  poutBound : ∀ p, s.nextPid ≤ p → s.pout p = none
  pidBoundP : ∀ c rec p, s.calls c = some rec → rec.placeholder = some p → p < s.nextPid
  pidBoundA : ∀ c rec p, s.calls c = some rec → rec.actual = some p → p < s.nextPid
  pidInjPP : ∀ c c' rec rec' p, s.calls c = some rec → s.calls c' = some rec' →
    rec.placeholder = some p → rec'.placeholder = some p → c = c'
  pidInjAA : ∀ c c' rec rec' p, s.calls c = some rec → s.calls c' = some rec' →
    rec.actual = some p → rec'.actual = some p → c = c'
  pidInjPA : ∀ c c' rec rec' p, s.calls c = some rec → s.calls c' = some rec' →
    rec.placeholder = some p → rec'.actual = some p → False
  joinerIdle : ∀ c rec, s.calls c = some rec → rec.isJoiner = true →
    rec.registered = false ∧ rec.settled = false ∧
      rec.placeholder = none ∧ rec.actual = none
  unsetBefore : ∀ c rec, s.calls c = some rec → rec.settled = false →
    (∀ p, rec.placeholder = some p → s.pout p = none) ∧
    (∀ p, rec.actual = some p → s.pout p = none)
  joinerShape : ∀ c rec, s.calls c = some rec → rec.isJoiner = true →
    ∃ ro, s.calls rec.owner = some ro ∧ ro.isJoiner = false ∧
      (ro.placeholder = some rec.joinedPid ∨ ro.actual = some rec.joinedPid)
  dmapShape : ∀ k pid ow, (k, pid, ow) ∈ s.dmap →
    ∃ rec, s.calls ow = some rec ∧ rec.isJoiner = false ∧ rec.settled = false ∧
      rec.key = some k ∧
      ((rec.registered = false ∧ rec.placeholder = some pid) ∨
       (rec.registered = true ∧ rec.actual = some pid))
  creatorEntry : ∀ c rec k, s.calls c = some rec → rec.isJoiner = false →
    rec.settled = false → rec.key = some k →
    ∃ pid, s.dmap.lookup k = some (pid, c)
  settledOut : ∀ c rec o, s.calls c = some rec → rec.settled = true →
    rec.outcome = some o →
    (∀ p, rec.placeholder = some p → s.pout p = some o) ∧
    (∀ p, rec.actual = some p → s.pout p = some o)
  pendingIff : ∀ c, c ∈ s.pending ↔
    ∃ rec, s.calls c = some rec ∧ rec.registered = true ∧ rec.settled = false
  runsIff : ∀ c, c ∈ s.runs ↔
    ∃ rec, s.calls c = some rec ∧ rec.isJoiner = false ∧ rec.registered = true
  hookIff : ∀ c, c ∈ s.hookRuns ↔
    ∃ rec, s.calls c = some rec ∧ rec.isJoiner = false ∧ rec.registered = true
  actualReg : ∀ c rec, s.calls c = some rec → rec.registered = false →
    rec.actual = none

/-- The initial state satisfies the invariant. -/
theorem dinv_init : DInv DState.init := by
  constructor <;> simp [DState.init]

/-- Helper: adding a fresh call record that has no promises and is neither
registered nor settled preserves the invariant, provided a joiner points at a
live non-joiner owner and a non-joiner with a key owns the map entry. -/
theorem dinv_start_fresh (s : DState) (h : DInv s) (c : Nat)
    (hn : s.calls c = none) (rec : CallRec)
    (hpl : rec.placeholder = none) (hac : rec.actual = none)
    (hreg : rec.registered = false) (hset : rec.settled = false)
    (hjoin : rec.isJoiner = true →
      ∃ ro, s.calls rec.owner = some ro ∧ ro.isJoiner = false ∧
        (ro.placeholder = some rec.joinedPid ∨ ro.actual = some rec.joinedPid))
    (hcreate : rec.isJoiner = false → ∀ k, rec.key = some k →
      ∃ pid, s.dmap.lookup k = some (pid, c))
    (st : List Nat) :
    DInv { s with
           calls := fun c' => if c' = c then some rec else s.calls c',
           started := st } := by
  have hne : ∀ c' (r : CallRec), s.calls c' = some r → c' ≠ c := by
    intro c' r hr he
    rw [he, hn] at hr
    exact Option.noConfusion hr
  refine ⟨h.keysNodup, h.pendNodup, h.runsNodup, h.hookNodup, h.poutBound,
    ?_, ?_, ?_, ?_, ?_, ?_, ?_, ?_, ?_, ?_, ?_, ?_, ?_, ?_, ?_⟩
  · intro c' r p hr hp
    dsimp only at hr
    by_cases hc : c' = c
    · rw [if_pos hc] at hr
      injection hr with hr
      rw [← hr, hpl] at hp
      exact Option.noConfusion hp
    · rw [if_neg hc] at hr
      exact h.pidBoundP c' r p hr hp
  · intro c' r p hr hp
    dsimp only at hr
    by_cases hc : c' = c
    · rw [if_pos hc] at hr
      injection hr with hr
      rw [← hr, hac] at hp
      exact Option.noConfusion hp
    · rw [if_neg hc] at hr
      exact h.pidBoundA c' r p hr hp
  · intro c1 c2 r1 r2 p h1 h2 hp1 hp2
    dsimp only at h1 h2
    by_cases hc1 : c1 = c
    · rw [if_pos hc1] at h1
      injection h1 with h1
      rw [← h1, hpl] at hp1
      exact Option.noConfusion hp1
    · rw [if_neg hc1] at h1
      by_cases hc2 : c2 = c
      · rw [if_pos hc2] at h2
        injection h2 with h2
        rw [← h2, hpl] at hp2
        exact Option.noConfusion hp2
      · rw [if_neg hc2] at h2
        exact h.pidInjPP c1 c2 r1 r2 p h1 h2 hp1 hp2
  · intro c1 c2 r1 r2 p h1 h2 hp1 hp2
    dsimp only at h1 h2
    by_cases hc1 : c1 = c
    · rw [if_pos hc1] at h1
      injection h1 with h1
      rw [← h1, hac] at hp1
      exact Option.noConfusion hp1
    · rw [if_neg hc1] at h1
      by_cases hc2 : c2 = c
      · rw [if_pos hc2] at h2
        injection h2 with h2
        rw [← h2, hac] at hp2
        exact Option.noConfusion hp2
      · rw [if_neg hc2] at h2
        exact h.pidInjAA c1 c2 r1 r2 p h1 h2 hp1 hp2
  · intro c1 c2 r1 r2 p h1 h2 hp1 hp2
    dsimp only at h1 h2
    by_cases hc1 : c1 = c
    · rw [if_pos hc1] at h1
      injection h1 with h1
      rw [← h1, hpl] at hp1
      exact Option.noConfusion hp1
    · rw [if_neg hc1] at h1
      by_cases hc2 : c2 = c
      · rw [if_pos hc2] at h2
        injection h2 with h2
        rw [← h2, hac] at hp2
        exact Option.noConfusion hp2
      · rw [if_neg hc2] at h2
        exact h.pidInjPA c1 c2 r1 r2 p h1 h2 hp1 hp2
  · intro c' r hr hj
    dsimp only at hr
    by_cases hc : c' = c
    · rw [if_pos hc] at hr
      injection hr with hr
      rw [← hr]
      exact ⟨hreg, hset, hpl, hac⟩
    · rw [if_neg hc] at hr
      exact h.joinerIdle c' r hr hj
  · intro c' r hr hs
    dsimp only at hr
    by_cases hc : c' = c
    · rw [if_pos hc] at hr
      injection hr with hr
      rw [← hr]
      constructor
      · intro p hp
        rw [hpl] at hp
        exact Option.noConfusion hp
      · intro p hp
        rw [hac] at hp
        exact Option.noConfusion hp
    · rw [if_neg hc] at hr
      exact h.unsetBefore c' r hr hs
  · intro c' r hr hj
    dsimp only at hr
    by_cases hc : c' = c
    · rw [if_pos hc] at hr
      injection hr with hr
      subst hr
      obtain ⟨ro, hro, hroj, hrop⟩ := hjoin hj
      refine ⟨ro, ?_, hroj, hrop⟩
      dsimp only
      rw [if_neg (hne _ _ hro)]
      exact hro
    · rw [if_neg hc] at hr
      obtain ⟨ro, hro, hroj, hrop⟩ := h.joinerShape c' r hr hj
      refine ⟨ro, ?_, hroj, hrop⟩
      dsimp only
      rw [if_neg (hne _ _ hro)]
      exact hro
  · intro k pid ow hmem
    obtain ⟨ro, hro, h1, h2, h3, h4⟩ := h.dmapShape k pid ow hmem
    refine ⟨ro, ?_, h1, h2, h3, h4⟩
    dsimp only
    rw [if_neg (hne _ _ hro)]
    exact hro
  · intro c' r k hr hj hs hk
    dsimp only at hr
    by_cases hc : c' = c
    · rw [if_pos hc] at hr
      injection hr with hr
      subst hr
      subst hc
      exact hcreate hj k hk
    · rw [if_neg hc] at hr
      exact h.creatorEntry c' r k hr hj hs hk
  · intro c' r o hr hs ho
    dsimp only at hr
    by_cases hc : c' = c
    · rw [if_pos hc] at hr
      injection hr with hr
      rw [← hr] at hs
      rw [hset] at hs
      exact Bool.noConfusion hs
    · rw [if_neg hc] at hr
      exact h.settledOut c' r o hr hs ho
  · intro c'
    dsimp only
    rw [h.pendingIff c']
    constructor
    · rintro ⟨r, hr, h1, h2⟩
      refine ⟨r, ?_, h1, h2⟩
      rw [if_neg (hne _ _ hr)]
      exact hr
    · rintro ⟨r, hr, h1, h2⟩
      by_cases hc : c' = c
      · rw [if_pos hc] at hr
        injection hr with hr
        rw [← hr, hreg] at h1
        exact Bool.noConfusion h1
      · rw [if_neg hc] at hr
        exact ⟨r, hr, h1, h2⟩
  · intro c'
    dsimp only
    rw [h.runsIff c']
    constructor
    · rintro ⟨r, hr, h1, h2⟩
      refine ⟨r, ?_, h1, h2⟩
      rw [if_neg (hne _ _ hr)]
      exact hr
    · rintro ⟨r, hr, h1, h2⟩
      by_cases hc : c' = c
      · rw [if_pos hc] at hr
        injection hr with hr
        rw [← hr, hreg] at h2
        exact Bool.noConfusion h2
      · rw [if_neg hc] at hr
        exact ⟨r, hr, h1, h2⟩
  · intro c'
    dsimp only
    rw [h.hookIff c']
    constructor
    · rintro ⟨r, hr, h1, h2⟩
      refine ⟨r, ?_, h1, h2⟩
      rw [if_neg (hne _ _ hr)]
      exact hr
    · rintro ⟨r, hr, h1, h2⟩
      by_cases hc : c' = c
      · rw [if_pos hc] at hr
        injection hr with hr
        rw [← hr, hreg] at h2
        exact Bool.noConfusion h2
      · rw [if_neg hc] at hr
        exact ⟨r, hr, h1, h2⟩
  · intro c' r hr hreg'
    dsimp only at hr
    by_cases hc : c' = c
    · rw [if_pos hc] at hr
      injection hr with hr
      rw [← hr]
      exact hac
    · rw [if_neg hc] at hr
      exact h.actualReg c' r hr hreg'

/-- The `start` event preserves the invariant. -/
theorem dinv_start (s : DState) (h : DInv s) (c : Nat) (key : Option String) :
    DInv (dstep s (.start c key)) := by
  by_cases hs : (s.calls c).isSome
  · simp only [dstep, if_pos hs]
    exact h
  · have hn : s.calls c = none := Option.not_isSome_iff_eq_none.mp hs
    have hne : ∀ c' (r : CallRec), s.calls c' = some r → c' ≠ c := by
      intro c' r hr he
      rw [he, hn] at hr
      exact Option.noConfusion hr
    cases key with
    | none =>
      simp only [dstep, if_neg hs]
      refine dinv_start_fresh s h c hn _ rfl rfl rfl rfl ?_ ?_ _
      · intro hj
        exact Bool.noConfusion hj
      · intro _ k hk
        exact Option.noConfusion hk
    | some k =>
      cases hl : s.dmap.lookup k with
      | some po =>
        obtain ⟨pid, ow⟩ := po
        simp only [dstep, if_neg hs, hl]
        refine dinv_start_fresh s h c hn _ rfl rfl rfl rfl ?_ ?_ _
        · intro _
          obtain ⟨ro, hro, h1, _, _, h4⟩ := h.dmapShape k pid ow (lookup_mem hl)
          refine ⟨ro, hro, h1, ?_⟩
          rcases h4 with ⟨_, hp⟩ | ⟨_, hp⟩
          · exact Or.inl hp
          · exact Or.inr hp
        · intro hj
          exact Bool.noConfusion hj
      | none =>
        simp only [dstep, if_neg hs, hl]
        refine ⟨?_, h.pendNodup, h.runsNodup, h.hookNodup, ?_,
          ?_, ?_, ?_, ?_, ?_, ?_, ?_, ?_, ?_, ?_, ?_, ?_, ?_, ?_, ?_⟩
        · dsimp only
          rw [List.map_cons]
          exact List.nodup_cons.mpr ⟨lookup_none_notin k s.dmap hl, h.keysNodup⟩
        · intro p hp
          dsimp only at hp
          exact h.poutBound p (by omega)
        · intro c' r p hr hp
          dsimp only at hr ⊢
          by_cases hc : c' = c
          · rw [if_pos hc] at hr
            injection hr with hr
            rw [← hr] at hp
            injection hp with hp
            omega
          · rw [if_neg hc] at hr
            have := h.pidBoundP c' r p hr hp
            omega
        · intro c' r p hr hp
          dsimp only at hr ⊢
          by_cases hc : c' = c
          · rw [if_pos hc] at hr
            injection hr with hr
            rw [← hr] at hp
            exact Option.noConfusion hp
          · rw [if_neg hc] at hr
            have := h.pidBoundA c' r p hr hp
            omega
        · intro c1 c2 r1 r2 p h1 h2 hp1 hp2
          dsimp only at h1 h2
          by_cases hc1 : c1 = c
          · by_cases hc2 : c2 = c
            · rw [hc1, hc2]
            · rw [if_pos hc1] at h1
              injection h1 with h1
              rw [← h1] at hp1
              injection hp1 with hp1
              rw [if_neg hc2] at h2
              have := h.pidBoundP c2 r2 p h2 hp2
              omega
          · rw [if_neg hc1] at h1
            by_cases hc2 : c2 = c
            · rw [if_pos hc2] at h2
              injection h2 with h2
              rw [← h2] at hp2
              injection hp2 with hp2
              have := h.pidBoundP c1 r1 p h1 hp1
              omega
            · rw [if_neg hc2] at h2
              exact h.pidInjPP c1 c2 r1 r2 p h1 h2 hp1 hp2
        · intro c1 c2 r1 r2 p h1 h2 hp1 hp2
          dsimp only at h1 h2
          by_cases hc1 : c1 = c
          · rw [if_pos hc1] at h1
            injection h1 with h1
            rw [← h1] at hp1
            exact Option.noConfusion hp1
          · rw [if_neg hc1] at h1
            by_cases hc2 : c2 = c
            · rw [if_pos hc2] at h2
              injection h2 with h2
              rw [← h2] at hp2
              exact Option.noConfusion hp2
            · rw [if_neg hc2] at h2
              exact h.pidInjAA c1 c2 r1 r2 p h1 h2 hp1 hp2
        · intro c1 c2 r1 r2 p h1 h2 hp1 hp2
          dsimp only at h1 h2
          by_cases hc2 : c2 = c
          · rw [if_pos hc2] at h2
            injection h2 with h2
            rw [← h2] at hp2
            exact Option.noConfusion hp2
          · rw [if_neg hc2] at h2
            by_cases hc1 : c1 = c
            · rw [if_pos hc1] at h1
              injection h1 with h1
              rw [← h1] at hp1
              injection hp1 with hp1
              have := h.pidBoundA c2 r2 p h2 hp2
              omega
            · rw [if_neg hc1] at h1
              exact h.pidInjPA c1 c2 r1 r2 p h1 h2 hp1 hp2
        · intro c' r hr hj
          dsimp only at hr
          by_cases hc : c' = c
          · rw [if_pos hc] at hr
            injection hr with hr
            rw [← hr] at hj
            exact Bool.noConfusion hj
          · rw [if_neg hc] at hr
            exact h.joinerIdle c' r hr hj
        · intro c' r hr hst
          dsimp only at hr ⊢
          by_cases hc : c' = c
          · rw [if_pos hc] at hr
            injection hr with hr
            rw [← hr]
            constructor
            · intro p hp
              injection hp with hp
              exact h.poutBound p (by omega)
            · intro p hp
              exact Option.noConfusion hp
          · rw [if_neg hc] at hr
            exact h.unsetBefore c' r hr hst
        · intro c' r hr hj
          dsimp only at hr ⊢
          by_cases hc : c' = c
          · rw [if_pos hc] at hr
            injection hr with hr
            rw [← hr] at hj
            exact Bool.noConfusion hj
          · rw [if_neg hc] at hr
            obtain ⟨ro, hro, h1, h2⟩ := h.joinerShape c' r hr hj
            refine ⟨ro, ?_, h1, h2⟩
            rw [if_neg (hne _ _ hro)]
            exact hro
        · intro k' pid' ow' hmem
          dsimp only at hmem ⊢
          rcases List.mem_cons.mp hmem with he | hmem
          · simp only [Prod.mk.injEq] at he
            rcases he with ⟨he1, he2, he3⟩
            refine ⟨{ key := some k, placeholder := some s.nextPid }, ?_,
              rfl, rfl, ?_, Or.inl ⟨rfl, ?_⟩⟩
            · rw [he3, if_pos rfl]
            · rw [he1]
            · rw [he2]
          · obtain ⟨ro, hro, h1, h2, h3, h4⟩ := h.dmapShape k' pid' ow' hmem
            refine ⟨ro, ?_, h1, h2, h3, h4⟩
            rw [if_neg (hne _ _ hro)]
            exact hro
        · intro c' r k' hr hj hst hk
          dsimp only at hr ⊢
          by_cases hc : c' = c
          · rw [if_pos hc] at hr
            injection hr with hr
            rw [← hr] at hk
            injection hk with hk
            subst hk
            subst hc
            refine ⟨s.nextPid, ?_⟩
            rw [lookup_cons_unfold, if_pos rfl]
          · rw [if_neg hc] at hr
            obtain ⟨pid, hlk⟩ := h.creatorEntry c' r k' hr hj hst hk
            have hkk : k' ≠ k := by
              intro he
              rw [he, hl] at hlk
              exact Option.noConfusion hlk
            refine ⟨pid, ?_⟩
            rw [lookup_cons_ne hkk]
            exact hlk
        · intro c' r o hr hst ho
          dsimp only at hr
          by_cases hc : c' = c
          · rw [if_pos hc] at hr
            injection hr with hr
            rw [← hr] at hst
            exact Bool.noConfusion hst
          · rw [if_neg hc] at hr
            exact h.settledOut c' r o hr hst ho
        · intro c'
          dsimp only
          rw [h.pendingIff c']
          constructor
          · rintro ⟨r, hr, h1, h2⟩
            refine ⟨r, ?_, h1, h2⟩
            rw [if_neg (hne _ _ hr)]
            exact hr
          · rintro ⟨r, hr, h1, h2⟩
            by_cases hc : c' = c
            · rw [if_pos hc] at hr
              injection hr with hr
              rw [← hr] at h1
              exact Bool.noConfusion h1
            · rw [if_neg hc] at hr
              exact ⟨r, hr, h1, h2⟩
        · intro c'
          dsimp only
          rw [h.runsIff c']
          constructor
          · rintro ⟨r, hr, h1, h2⟩
            refine ⟨r, ?_, h1, h2⟩
            rw [if_neg (hne _ _ hr)]
            exact hr
          · rintro ⟨r, hr, h1, h2⟩
            by_cases hc : c' = c
            · rw [if_pos hc] at hr
              injection hr with hr
              rw [← hr] at h2
              exact Bool.noConfusion h2
            · rw [if_neg hc] at hr
              exact ⟨r, hr, h1, h2⟩
        · intro c'
          dsimp only
          rw [h.hookIff c']
          constructor
          · rintro ⟨r, hr, h1, h2⟩
            refine ⟨r, ?_, h1, h2⟩
            rw [if_neg (hne _ _ hr)]
            exact hr
          · rintro ⟨r, hr, h1, h2⟩
            by_cases hc : c' = c
            · rw [if_pos hc] at hr
              injection hr with hr
              rw [← hr] at h2
              exact Bool.noConfusion h2
            · rw [if_neg hc] at hr
              exact ⟨r, hr, h1, h2⟩
        · intro c' r hr hreg'
          dsimp only at hr
          by_cases hc : c' = c
          · rw [if_pos hc] at hr
            injection hr with hr
            rw [← hr]
          · rw [if_neg hc] at hr
            exact h.actualReg c' r hr hreg'

/-- Helper for the `register` event: all invariant fields except the three
that depend on how the dedupe map was rewritten. -/
theorem dinv_register_core (s : DState) (h : DInv s) (c : Nat) (rec : CallRec)
    (hr0 : s.calls c = some rec) (hj : rec.isJoiner = false)
    (hreg : rec.registered = false) (hset : rec.settled = false)
    (dmap' : List (String × Nat × Nat))
    (hkeys : (dmap'.map (fun p => p.1)).Nodup)
    (hshape : ∀ k' pid' ow', (k', pid', ow') ∈ dmap' →
      ∃ r, (if ow' = c then
          some { rec with registered := true, actual := some s.nextPid }
        else s.calls ow') = some r ∧
        r.isJoiner = false ∧ r.settled = false ∧ r.key = some k' ∧
        ((r.registered = false ∧ r.placeholder = some pid') ∨
         (r.registered = true ∧ r.actual = some pid')))
    (hcreator : ∀ c' r k', (if c' = c then
        some { rec with registered := true, actual := some s.nextPid }
      else s.calls c') = some r → r.isJoiner = false → r.settled = false →
      r.key = some k' → ∃ pid, dmap'.lookup k' = some (pid, c')) :
    DInv { s with
           calls := fun c' => if c' = c then
               some { rec with registered := true, actual := some s.nextPid }
             else s.calls c',
           dmap := dmap',
           pending := s.pending ++ [c],
           nextPid := s.nextPid + 1,
           runs := c :: s.runs,
           hookRuns := c :: s.hookRuns } := by
  have hact : rec.actual = none := h.actualReg c rec hr0 hreg
  have hcp : c ∉ s.pending := by
    intro hc
    obtain ⟨r, hr, h1, _⟩ := (h.pendingIff c).mp hc
    rw [hr0] at hr
    injection hr with hr
    rw [← hr, hreg] at h1
    exact Bool.noConfusion h1
  have hcr : c ∉ s.runs := by
    intro hc
    obtain ⟨r, hr, _, h2⟩ := (h.runsIff c).mp hc
    rw [hr0] at hr
    injection hr with hr
    rw [← hr, hreg] at h2
    exact Bool.noConfusion h2
  have hch : c ∉ s.hookRuns := by
    intro hc
    obtain ⟨r, hr, _, h2⟩ := (h.hookIff c).mp hc
    rw [hr0] at hr
    injection hr with hr
    rw [← hr, hreg] at h2
    exact Bool.noConfusion h2
  refine ⟨hkeys, ?_, ?_, ?_, ?_, ?_, ?_, ?_, ?_, ?_, ?_, ?_, ?_, hshape,
    hcreator, ?_, ?_, ?_, ?_, ?_⟩
  · dsimp only
    rw [List.nodup_append]
    refine ⟨h.pendNodup, by simp, ?_⟩
    intro a ha hb
    rw [List.mem_singleton] at hb
    subst hb
    exact hcp ha
  · exact List.nodup_cons.mpr ⟨hcr, h.runsNodup⟩
  · exact List.nodup_cons.mpr ⟨hch, h.hookNodup⟩
  · intro p hp
    dsimp only at hp
    exact h.poutBound p (by omega)
  · intro c' r p hr hp
    dsimp only at hr ⊢
    by_cases hc : c' = c
    · rw [if_pos hc] at hr
      injection hr with hr
      rw [← hr] at hp
      dsimp only at hp
      have := h.pidBoundP c rec p hr0 hp
      omega
    · rw [if_neg hc] at hr
      have := h.pidBoundP c' r p hr hp
      omega
  · intro c' r p hr hp
    dsimp only at hr ⊢
    by_cases hc : c' = c
    · rw [if_pos hc] at hr
      injection hr with hr
      rw [← hr] at hp
      dsimp only at hp
      injection hp with hp
      omega
    · rw [if_neg hc] at hr
      have := h.pidBoundA c' r p hr hp
      omega
  · intro c1 c2 r1 r2 p h1 h2 hp1 hp2
    dsimp only at h1 h2
    by_cases hc1 : c1 = c
    · rw [if_pos hc1] at h1
      injection h1 with h1
      rw [← h1] at hp1
      dsimp only at hp1
      by_cases hc2 : c2 = c
      · rw [hc1, hc2]
      · rw [if_neg hc2] at h2
        rw [hc1]
        exact h.pidInjPP c c2 rec r2 p hr0 h2 hp1 hp2
    · rw [if_neg hc1] at h1
      by_cases hc2 : c2 = c
      · rw [if_pos hc2] at h2
        injection h2 with h2
        rw [← h2] at hp2
        dsimp only at hp2
        rw [hc2]
        exact h.pidInjPP c1 c r1 rec p h1 hr0 hp1 hp2
      · rw [if_neg hc2] at h2
        exact h.pidInjPP c1 c2 r1 r2 p h1 h2 hp1 hp2
  · intro c1 c2 r1 r2 p h1 h2 hp1 hp2
    dsimp only at h1 h2
    by_cases hc1 : c1 = c
    · by_cases hc2 : c2 = c
      · rw [hc1, hc2]
      · rw [if_pos hc1] at h1
        injection h1 with h1
        rw [← h1] at hp1
        dsimp only at hp1
        injection hp1 with hp1
        rw [if_neg hc2] at h2
        have := h.pidBoundA c2 r2 p h2 hp2
        omega
    · rw [if_neg hc1] at h1
      by_cases hc2 : c2 = c
      · rw [if_pos hc2] at h2
        injection h2 with h2
        rw [← h2] at hp2
        dsimp only at hp2
        injection hp2 with hp2
        have := h.pidBoundA c1 r1 p h1 hp1
        omega
      · rw [if_neg hc2] at h2
        exact h.pidInjAA c1 c2 r1 r2 p h1 h2 hp1 hp2
  · intro c1 c2 r1 r2 p h1 h2 hp1 hp2
    dsimp only at h1 h2
    by_cases hc2 : c2 = c
    · rw [if_pos hc2] at h2
      injection h2 with h2
      rw [← h2] at hp2
      dsimp only at hp2
      injection hp2 with hp2
      by_cases hc1 : c1 = c
      · rw [if_pos hc1] at h1
        injection h1 with h1
        rw [← h1] at hp1
        dsimp only at hp1
        have := h.pidBoundP c rec p hr0 hp1
        omega
      · rw [if_neg hc1] at h1
        have := h.pidBoundP c1 r1 p h1 hp1
        omega
    · rw [if_neg hc2] at h2
      by_cases hc1 : c1 = c
      · rw [if_pos hc1] at h1
        injection h1 with h1
        rw [← h1] at hp1
        dsimp only at hp1
        exact h.pidInjPA c c2 rec r2 p hr0 h2 hp1 hp2
      · rw [if_neg hc1] at h1
        exact h.pidInjPA c1 c2 r1 r2 p h1 h2 hp1 hp2
  · intro c' r hr hj'
    dsimp only at hr
    by_cases hc : c' = c
    · rw [if_pos hc] at hr
      injection hr with hr
      rw [← hr] at hj'
      dsimp only at hj'
      rw [hj] at hj'
      exact Bool.noConfusion hj'
    · rw [if_neg hc] at hr
      exact h.joinerIdle c' r hr hj'
  · intro c' r hr hst
    dsimp only at hr ⊢
    by_cases hc : c' = c
    · rw [if_pos hc] at hr
      injection hr with hr
      rw [← hr]
      constructor
      · intro p hp
        dsimp only at hp
        exact (h.unsetBefore c rec hr0 hset).1 p hp
      · intro p hp
        dsimp only at hp
        injection hp with hp
        exact h.poutBound p (by omega)
    · rw [if_neg hc] at hr
      exact h.unsetBefore c' r hr hst
  · intro c' r hr hj'
    dsimp only at hr ⊢
    by_cases hc : c' = c
    · rw [if_pos hc] at hr
      injection hr with hr
      rw [← hr] at hj'
      dsimp only at hj'
      rw [hj] at hj'
      exact Bool.noConfusion hj'
    · rw [if_neg hc] at hr
      obtain ⟨ro, hro, h1, h2⟩ := h.joinerShape c' r hr hj'
      by_cases hoc : r.owner = c
      · rw [hoc, hr0] at hro
        injection hro with hro
        refine ⟨{ rec with registered := true, actual := some s.nextPid },
          ?_, ?_, ?_⟩
        · rw [hoc, if_pos rfl]
        · dsimp only
          rw [hro]
          exact h1
        · rcases h2 with hp | hp
          · rw [← hro] at hp
            exact Or.inl hp
          · rw [← hro, hact] at hp
            exact Option.noConfusion hp
      · refine ⟨ro, ?_, h1, h2⟩
        rw [if_neg hoc]
        exact hro
  · intro c' r o hr hst ho
    dsimp only at hr ⊢
    by_cases hc : c' = c
    · rw [if_pos hc] at hr
      injection hr with hr
      rw [← hr] at hst
      dsimp only at hst
      rw [hset] at hst
      exact Bool.noConfusion hst
    · rw [if_neg hc] at hr
      exact h.settledOut c' r o hr hst ho
  · intro c'
    dsimp only
    constructor
    · intro hmem
      rw [List.mem_append] at hmem
      rcases hmem with hm | hm
      · obtain ⟨r, hr, h1, h2⟩ := (h.pendingIff c').mp hm
        have hc : c' ≠ c := by
          intro he
          rw [he] at hm
          exact hcp hm
        refine ⟨r, ?_, h1, h2⟩
        rw [if_neg hc]
        exact hr
      · rw [List.mem_singleton] at hm
        subst hm
        refine ⟨{ rec with registered := true, actual := some s.nextPid },
          ?_, rfl, hset⟩
        rw [if_pos rfl]
    · rintro ⟨r, hr, h1, h2⟩
      rw [List.mem_append]
      by_cases hc : c' = c
      · right
        rw [List.mem_singleton]
        exact hc
      · left
        rw [if_neg hc] at hr
        exact (h.pendingIff c').mpr ⟨r, hr, h1, h2⟩
  · intro c'
    dsimp only
    constructor
    · intro hmem
      rcases List.mem_cons.mp hmem with hm | hm
      · subst hm
        refine ⟨{ rec with registered := true, actual := some s.nextPid },
          ?_, hj, rfl⟩
        rw [if_pos rfl]
      · obtain ⟨r, hr, h1, h2⟩ := (h.runsIff c').mp hm
        have hc : c' ≠ c := by
          intro he
          rw [he] at hm
          exact hcr hm
        refine ⟨r, ?_, h1, h2⟩
        rw [if_neg hc]
        exact hr
    · rintro ⟨r, hr, h1, h2⟩
      by_cases hc : c' = c
      · rw [hc]
        exact List.mem_cons_self _ _
      · rw [if_neg hc] at hr
        exact List.mem_cons_of_mem _ ((h.runsIff c').mpr ⟨r, hr, h1, h2⟩)
  · intro c'
    dsimp only
    constructor
    · intro hmem
      rcases List.mem_cons.mp hmem with hm | hm
      · subst hm
        refine ⟨{ rec with registered := true, actual := some s.nextPid },
          ?_, hj, rfl⟩
        rw [if_pos rfl]
      · obtain ⟨r, hr, h1, h2⟩ := (h.hookIff c').mp hm
        have hc : c' ≠ c := by
          intro he
          rw [he] at hm
          exact hch hm
        refine ⟨r, ?_, h1, h2⟩
        rw [if_neg hc]
        exact hr
    · rintro ⟨r, hr, h1, h2⟩
      by_cases hc : c' = c
      · rw [hc]
        exact List.mem_cons_self _ _
      · rw [if_neg hc] at hr
        exact List.mem_cons_of_mem _ ((h.hookIff c').mpr ⟨r, hr, h1, h2⟩)
  · intro c' r hr hreg'
    dsimp only at hr
    by_cases hc : c' = c
    · rw [if_pos hc] at hr
      injection hr with hr
      rw [← hr] at hreg'
      dsimp only at hreg'
      exact Bool.noConfusion hreg'
    · rw [if_neg hc] at hr
      exact h.actualReg c' r hr hreg'

/-- The `register` event preserves the invariant. -/
theorem dinv_register (s : DState) (h : DInv s) (c : Nat) :
    DInv (dstep s (.register c)) := by
  cases hr0 : s.calls c with
  | none =>
    simp only [dstep, hr0]
    exact h
  | some rec =>
    by_cases hg : (rec.isJoiner || rec.registered || rec.settled) = true
    · simp only [dstep, hr0, if_pos hg]
      exact h
    · have hj : rec.isJoiner = false := by
        rcases hb : rec.isJoiner
        · rfl
        · exact absurd (by simp [hb]) hg
      have hreg : rec.registered = false := by
        rcases hb : rec.registered
        · rfl
        · exact absurd (by simp [hb]) hg
      have hset : rec.settled = false := by
        rcases hb : rec.settled
        · rfl
        · exact absurd (by simp [hb]) hg
      simp only [dstep, hr0, if_neg hg]
      refine dinv_register_core s h c rec hr0 hj hreg hset _ ?_ ?_ ?_
      · cases hk0 : rec.key with
        | none => exact h.keysNodup
        | some k =>
          rw [List.map_map]
          have he : ((fun p : String × Nat × Nat => p.1) ∘
              fun p : String × Nat × Nat =>
                if p.1 = k then (p.1, s.nextPid, p.2.2) else p) =
              fun p : String × Nat × Nat => p.1 := by
            funext p
            dsimp only [Function.comp]
            split <;> rfl
          rw [he]
          exact h.keysNodup
      · cases hk0 : rec.key with
        | none =>
          intro k' pid' ow' hmem
          obtain ⟨r', hr', h1, h2, h3, h4⟩ := h.dmapShape k' pid' ow' hmem
          have how : ow' ≠ c := by
            intro he
            rw [he, hr0] at hr'
            injection hr' with hr'
            rw [← hr', hk0] at h3
            exact Option.noConfusion h3
          refine ⟨r', ?_, h1, h2, h3, h4⟩
          rw [if_neg how]
          exact hr'
        | some k =>
          obtain ⟨pid0, hlk⟩ := h.creatorEntry c rec k hr0 hj hset hk0
          intro k' pid' ow' hmem
          obtain ⟨p0, hp0, hfp⟩ := List.mem_map.mp hmem
          obtain ⟨pk, ppid, pow⟩ := p0
          dsimp only at hfp
          by_cases hpk : pk = k
          · rw [if_pos hpk] at hfp
            simp only [Prod.mk.injEq] at hfp
            obtain ⟨he1, he2, he3⟩ := hfp
            have hl2 := mem_lookup_of_nodup h.keysNodup hp0
            rw [hpk, hlk] at hl2
            injection hl2 with hl2
            simp only [Prod.mk.injEq] at hl2
            obtain ⟨hl2a, hl2b⟩ := hl2
            refine ⟨{ rec with key := some k, registered := true, actual := some s.nextPid },
              ?_, ?_, ?_, ?_, Or.inr ⟨rfl, ?_⟩⟩
            · rw [← he3, ← hl2b, if_pos rfl]
            · exact hj
            · exact hset
            · dsimp only
              rw [← he1, hpk]
            · dsimp only
              rw [he2]
          · rw [if_neg hpk] at hfp
            obtain ⟨r', hr', h1, h2, h3, h4⟩ :=
              h.dmapShape k' pid' ow' (hfp ▸ hp0)
            have how : ow' ≠ c := by
              intro he
              rw [he, hr0] at hr'
              injection hr' with hr'
              rw [← hr', hk0] at h3
              injection h3 with h3
              have hpk' : pk = k' := congrArg (fun q => q.1) hfp
              rw [← h3] at hpk'
              exact hpk hpk'
            refine ⟨r', ?_, h1, h2, h3, h4⟩
            rw [if_neg how]
            exact hr'
      · cases hk0 : rec.key with
        | none =>
          intro c' r k' hr hj' hst' hk'
          by_cases hc : c' = c
          · rw [if_pos hc] at hr
            injection hr with hr
            rw [← hr] at hk'
            dsimp only at hk'
            exact Option.noConfusion hk'
          · rw [if_neg hc] at hr
            exact h.creatorEntry c' r k' hr hj' hst' hk'
        | some k =>
          obtain ⟨pid0, hlk⟩ := h.creatorEntry c rec k hr0 hj hset hk0
          have hf : ∀ p : String × Nat × Nat,
              ((if p.1 = k then (p.1, s.nextPid, p.2.2) else p) :
                String × Nat × Nat).1 = p.1 := by
            intro p
            split <;> rfl
          have hfix : ∀ p : String × Nat × Nat, p.1 ≠ k →
              (if p.1 = k then (p.1, s.nextPid, p.2.2) else p) = p := by
            intro p hp
            rw [if_neg hp]
          intro c' r k' hr hj' hst' hk'
          by_cases hc : c' = c
          · rw [if_pos hc] at hr
            injection hr with hr
            rw [← hr] at hk'
            dsimp only at hk'
            injection hk' with hk'
            subst hc
            refine ⟨s.nextPid, ?_⟩
            rw [lookup_map_keyfix _ hf, ← hk', hlk]
            simp
          · rw [if_neg hc] at hr
            obtain ⟨pid, hlk'⟩ := h.creatorEntry c' r k' hr hj' hst' hk'
            have hkk : k' ≠ k := by
              intro he
              rw [he, hlk] at hlk'
              injection hlk' with hlk'
              exact hc (congrArg (fun q => q.2) hlk').symm
            refine ⟨pid, ?_⟩
            rw [lookup_map_replace_ne _ hf s.dmap hkk hfix]
            exact hlk'

/-- A promise of the settling call (actual or wired placeholder) that has not
settled before receives the call's outcome. -/
theorem settlePout_hit (s : DState) (rec : CallRec) (o : Outcome) (q : Nat)
    (hq : rec.actual = some q ∨ rec.placeholder = some q)
    (h0 : s.pout q = none) : settlePout s rec o q = some o := by
  dsimp only [settlePout]
  by_cases hp : rec.placeholder = some q
  · rw [if_pos hp]
    by_cases ha : rec.actual = some q
    · rw [if_pos ha, h0]
      simp
    · rw [if_neg ha, h0]
      simp
  · rw [if_neg hp]
    rcases hq with ha | hpq
    · rw [if_pos ha, h0]
      simp
    · exact absurd hpq hp

/-- Promises of other calls are untouched by a settle. -/
theorem settlePout_miss (s : DState) (rec : CallRec) (o : Outcome) (q : Nat)
    (ha : rec.actual ≠ some q) (hp : rec.placeholder ≠ some q) :
    settlePout s rec o q = s.pout q := by
  dsimp only [settlePout]
  rw [if_neg hp, if_neg ha]

/-- Helper for the `settle` event: all invariant fields, over an abstract
rewritten dedupe map. -/
theorem dinv_settle_core (s : DState) (h : DInv s) (c : Nat) (rec : CallRec)
    (o : Outcome) (hr0 : s.calls c = some rec) (hj : rec.isJoiner = false)
    (hreg : rec.registered = true) (hset : rec.settled = false)
    (dmap' : List (String × Nat × Nat))
    (hsub : dmap'.Sublist s.dmap)
    (hnoc : ∀ k' pid', (k', pid', c) ∉ dmap')
    (hlk2 : ∀ c' r k', c' ≠ c → s.calls c' = some r → r.isJoiner = false →
      r.settled = false → r.key = some k' →
      ∃ pid, dmap'.lookup k' = some (pid, c')) :
    DInv { s with
           calls := fun c' => if c' = c then
               some { rec with settled := true, outcome := some o }
             else s.calls c',
           dmap := dmap',
           pending := s.pending.erase c,
           pout := settlePout s rec o } := by
  have hub := h.unsetBefore c rec hr0 hset
  have hpA : ∀ q, rec.actual = some q → settlePout s rec o q = some o :=
    fun q hq => settlePout_hit s rec o q (Or.inl hq) (hub.2 q hq)
  have hpP : ∀ q, rec.placeholder = some q → settlePout s rec o q = some o :=
    fun q hq => settlePout_hit s rec o q (Or.inr hq) (hub.1 q hq)
  have hmissP : ∀ c' r p, c' ≠ c → s.calls c' = some r →
      r.placeholder = some p → settlePout s rec o p = s.pout p := by
    intro c' r p hc hr hp
    refine settlePout_miss s rec o p ?_ ?_
    · intro he
      exact h.pidInjPA c' c r rec p hr hr0 hp he
    · intro he
      exact hc (h.pidInjPP c' c r rec p hr hr0 hp he)
  have hmissA : ∀ c' r p, c' ≠ c → s.calls c' = some r →
      r.actual = some p → settlePout s rec o p = s.pout p := by
    intro c' r p hc hr hp
    refine settlePout_miss s rec o p ?_ ?_
    · intro he
      exact hc (h.pidInjAA c' c r rec p hr hr0 hp he)
    · intro he
      exact h.pidInjPA c c' rec r p hr0 hr he hp
  refine ⟨?_, ?_, h.runsNodup, h.hookNodup, ?_, ?_, ?_, ?_, ?_, ?_, ?_, ?_,
    ?_, ?_, ?_, ?_, ?_, ?_, ?_, ?_⟩
  · exact List.Nodup.sublist (hsub.map (fun p => p.1)) h.keysNodup
  · exact h.pendNodup.erase c
  · intro p hp
    dsimp only at hp ⊢
    have ha : rec.actual ≠ some p := by
      intro he
      have := h.pidBoundA c rec p hr0 he
      omega
    have hq : rec.placeholder ≠ some p := by
      intro he
      have := h.pidBoundP c rec p hr0 he
      omega
    rw [settlePout_miss s rec o p ha hq]
    exact h.poutBound p (by omega)
  · intro c' r p hr hp
    dsimp only at hr ⊢
    by_cases hc : c' = c
    · rw [if_pos hc] at hr
      injection hr with hr
      rw [← hr] at hp
      dsimp only at hp
      exact h.pidBoundP c rec p hr0 hp
    · rw [if_neg hc] at hr
      exact h.pidBoundP c' r p hr hp
  · intro c' r p hr hp
    dsimp only at hr ⊢
    by_cases hc : c' = c
    · rw [if_pos hc] at hr
      injection hr with hr
      rw [← hr] at hp
      dsimp only at hp
      exact h.pidBoundA c rec p hr0 hp
    · rw [if_neg hc] at hr
      exact h.pidBoundA c' r p hr hp
  · intro c1 c2 r1 r2 p h1 h2 hp1 hp2
    dsimp only at h1 h2
    by_cases hc1 : c1 = c
    · rw [if_pos hc1] at h1
      injection h1 with h1
      rw [← h1] at hp1
      dsimp only at hp1
      by_cases hc2 : c2 = c
      · rw [hc1, hc2]
      · rw [if_neg hc2] at h2
        rw [hc1]
        exact h.pidInjPP c c2 rec r2 p hr0 h2 hp1 hp2
    · rw [if_neg hc1] at h1
      by_cases hc2 : c2 = c
      · rw [if_pos hc2] at h2
        injection h2 with h2
        rw [← h2] at hp2
        dsimp only at hp2
        rw [hc2]
        exact h.pidInjPP c1 c r1 rec p h1 hr0 hp1 hp2
      · rw [if_neg hc2] at h2
        exact h.pidInjPP c1 c2 r1 r2 p h1 h2 hp1 hp2
  · intro c1 c2 r1 r2 p h1 h2 hp1 hp2
    dsimp only at h1 h2
    by_cases hc1 : c1 = c
    · rw [if_pos hc1] at h1
      injection h1 with h1
      rw [← h1] at hp1
      dsimp only at hp1
      by_cases hc2 : c2 = c
      · rw [hc1, hc2]
      · rw [if_neg hc2] at h2
        rw [hc1]
        exact h.pidInjAA c c2 rec r2 p hr0 h2 hp1 hp2
    · rw [if_neg hc1] at h1
      by_cases hc2 : c2 = c
      · rw [if_pos hc2] at h2
        injection h2 with h2
        rw [← h2] at hp2
        dsimp only at hp2
        rw [hc2]
        exact h.pidInjAA c1 c r1 rec p h1 hr0 hp1 hp2
      · rw [if_neg hc2] at h2
        exact h.pidInjAA c1 c2 r1 r2 p h1 h2 hp1 hp2
  · intro c1 c2 r1 r2 p h1 h2 hp1 hp2
    dsimp only at h1 h2
    by_cases hc1 : c1 = c
    · rw [if_pos hc1] at h1
      injection h1 with h1
      rw [← h1] at hp1
      dsimp only at hp1
      by_cases hc2 : c2 = c
      · rw [if_pos hc2] at h2
        injection h2 with h2
        rw [← h2] at hp2
        dsimp only at hp2
        exact h.pidInjPA c c rec rec p hr0 hr0 hp1 hp2
      · rw [if_neg hc2] at h2
        exact h.pidInjPA c c2 rec r2 p hr0 h2 hp1 hp2
    · rw [if_neg hc1] at h1
      by_cases hc2 : c2 = c
      · rw [if_pos hc2] at h2
        injection h2 with h2
        rw [← h2] at hp2
        dsimp only at hp2
        exact h.pidInjPA c1 c r1 rec p h1 hr0 hp1 hp2
      · rw [if_neg hc2] at h2
        exact h.pidInjPA c1 c2 r1 r2 p h1 h2 hp1 hp2
  · intro c' r hr hj'
    dsimp only at hr
    by_cases hc : c' = c
    · rw [if_pos hc] at hr
      injection hr with hr
      rw [← hr] at hj'
      dsimp only at hj'
      rw [hj] at hj'
      exact Bool.noConfusion hj'
    · rw [if_neg hc] at hr
      exact h.joinerIdle c' r hr hj'
  · intro c' r hr hst
    dsimp only at hr ⊢
    by_cases hc : c' = c
    · rw [if_pos hc] at hr
      injection hr with hr
      rw [← hr] at hst
      dsimp only at hst
      exact Bool.noConfusion hst
    · rw [if_neg hc] at hr
      have hold := h.unsetBefore c' r hr hst
      constructor
      · intro p hp
        rw [hmissP c' r p hc hr hp]
        exact hold.1 p hp
      · intro p hp
        rw [hmissA c' r p hc hr hp]
        exact hold.2 p hp
  · intro c' r hr hj'
    dsimp only at hr ⊢
    by_cases hc : c' = c
    · rw [if_pos hc] at hr
      injection hr with hr
      rw [← hr] at hj'
      dsimp only at hj'
      rw [hj] at hj'
      exact Bool.noConfusion hj'
    · rw [if_neg hc] at hr
      obtain ⟨ro, hro, h1, h2⟩ := h.joinerShape c' r hr hj'
      by_cases hoc : r.owner = c
      · rw [hoc, hr0] at hro
        injection hro with hro
        refine ⟨{ rec with settled := true, outcome := some o }, ?_, ?_, ?_⟩
        · rw [hoc, if_pos rfl]
        · dsimp only
          rw [hro]
          exact h1
        · rcases h2 with hp | hp
          · rw [← hro] at hp
            exact Or.inl hp
          · rw [← hro] at hp
            exact Or.inr hp
      · refine ⟨ro, ?_, h1, h2⟩
        rw [if_neg hoc]
        exact hro
  · intro k' pid' ow' hmem
    dsimp only at hmem ⊢
    have hm2 : (k', pid', ow') ∈ s.dmap := hsub.subset hmem
    have how : ow' ≠ c := by
      intro he
      rw [he] at hmem
      exact hnoc k' pid' hmem
    obtain ⟨r', hr', h1, h2, h3, h4⟩ := h.dmapShape k' pid' ow' hm2
    refine ⟨r', ?_, h1, h2, h3, h4⟩
    rw [if_neg how]
    exact hr'
  · intro c' r k' hr hj' hst' hk'
    dsimp only at hr
    by_cases hc : c' = c
    · rw [if_pos hc] at hr
      injection hr with hr
      rw [← hr] at hst'
      dsimp only at hst'
      exact Bool.noConfusion hst'
    · rw [if_neg hc] at hr
      exact hlk2 c' r k' hc hr hj' hst' hk'
  · intro c' r o' hr hst ho
    dsimp only at hr ⊢
    by_cases hc : c' = c
    · rw [if_pos hc] at hr
      injection hr with hr
      rw [← hr] at ho
      dsimp only at ho
      injection ho with ho
      constructor
      · intro p hp
        rw [← hr] at hp
        dsimp only at hp
        rw [hpP p hp, ho]
      · intro p hp
        rw [← hr] at hp
        dsimp only at hp
        rw [hpA p hp, ho]
    · rw [if_neg hc] at hr
      have hold := h.settledOut c' r o' hr hst ho
      constructor
      · intro p hp
        rw [hmissP c' r p hc hr hp]
        exact hold.1 p hp
      · intro p hp
        rw [hmissA c' r p hc hr hp]
        exact hold.2 p hp
  · intro c'
    dsimp only
    rw [List.Nodup.mem_erase_iff h.pendNodup]
    constructor
    · rintro ⟨hne, hm⟩
      obtain ⟨r, hr, h1, h2⟩ := (h.pendingIff c').mp hm
      refine ⟨r, ?_, h1, h2⟩
      rw [if_neg hne]
      exact hr
    · rintro ⟨r, hr, h1, h2⟩
      by_cases hc : c' = c
      · rw [if_pos hc] at hr
        injection hr with hr
        rw [← hr] at h2
        dsimp only at h2
        exact Bool.noConfusion h2
      · rw [if_neg hc] at hr
        exact ⟨hc, (h.pendingIff c').mpr ⟨r, hr, h1, h2⟩⟩
  · intro c'
    dsimp only
    by_cases hc : c' = c
    · subst hc
      constructor
      · intro _
        refine ⟨{ rec with settled := true, outcome := some o }, ?_, hj, hreg⟩
        rw [if_pos rfl]
      · intro _
        exact (h.runsIff c').mpr ⟨rec, hr0, hj, hreg⟩
    · rw [h.runsIff c']
      constructor
      · rintro ⟨r, hr, h1, h2⟩
        refine ⟨r, ?_, h1, h2⟩
        rw [if_neg hc]
        exact hr
      · rintro ⟨r, hr, h1, h2⟩
        rw [if_neg hc] at hr
        exact ⟨r, hr, h1, h2⟩
  · intro c'
    dsimp only
    by_cases hc : c' = c
    · subst hc
      constructor
      · intro _
        refine ⟨{ rec with settled := true, outcome := some o }, ?_, hj, hreg⟩
        rw [if_pos rfl]
      · intro _
        exact (h.hookIff c').mpr ⟨rec, hr0, hj, hreg⟩
    · rw [h.hookIff c']
      constructor
      · rintro ⟨r, hr, h1, h2⟩
        refine ⟨r, ?_, h1, h2⟩
        rw [if_neg hc]
        exact hr
      · rintro ⟨r, hr, h1, h2⟩
        rw [if_neg hc] at hr
        exact ⟨r, hr, h1, h2⟩
  · intro c' r hr hreg'
    dsimp only at hr
    by_cases hc : c' = c
    · rw [if_pos hc] at hr
      injection hr with hr
      rw [← hr] at hreg'
      dsimp only at hreg'
      rw [hreg] at hreg'
      exact Bool.noConfusion hreg'
    · rw [if_neg hc] at hr
      exact h.actualReg c' r hr hreg'

/-- Unfolding `settleDmap` when the call carries no dedupe key. -/
theorem settleDmap_none (s : DState) (rec : CallRec) (hk : rec.key = none) :
    settleDmap s rec = s.dmap := by
  unfold settleDmap
  rw [hk]

/-- Unfolding `settleDmap` when the call carries a dedupe key. -/
theorem settleDmap_some (s : DState) (rec : CallRec) (k : String)
    (hk : rec.key = some k) :
    settleDmap s rec =
      (match s.dmap.lookup k with
       | some po =>
         if rec.actual = some po.1 then
           s.dmap.eraseP (fun p => p.1 == k)
         else s.dmap
       | none => s.dmap) := by
  unfold settleDmap
  rw [hk]

/-- The `settle` event preserves the invariant. -/
theorem dinv_settle (s : DState) (h : DInv s) (c : Nat) (o : Outcome) :
    DInv (dstep s (.settle c o)) := by
  cases hr0 : s.calls c with
  | none =>
    simp only [dstep, hr0]
    exact h
  | some rec =>
    by_cases hg : (rec.isJoiner || !rec.registered || rec.settled) = true
    · simp only [dstep, hr0, if_pos hg]
      exact h
    · have hj : rec.isJoiner = false := by
        rcases hb : rec.isJoiner
        · rfl
        · exact absurd (by simp [hb]) hg
      have hreg : rec.registered = true := by
        rcases hb : rec.registered
        · exact absurd (by simp [hb]) hg
        · rfl
      have hset : rec.settled = false := by
        rcases hb : rec.settled
        · rfl
        · exact absurd (by simp [hb]) hg
      simp only [dstep, hr0, if_neg hg]
      refine dinv_settle_core s h c rec o hr0 hj hreg hset _ ?_ ?_ ?_
      · cases hk0 : rec.key with
        | none =>
          rw [settleDmap_none s rec hk0]
        | some k =>
          rw [settleDmap_some s rec k hk0]
          cases hlkk : s.dmap.lookup k with
          | none => exact List.Sublist.refl _
          | some po =>
            dsimp only
            by_cases hae : rec.actual = some po.1
            · rw [if_pos hae]
              exact List.eraseP_sublist _
            · rw [if_neg hae]
      · intro k' pid'
        cases hk0 : rec.key with
        | none =>
          rw [settleDmap_none s rec hk0]
          intro hm
          obtain ⟨r', hr', _, _, h3, _⟩ := h.dmapShape k' pid' c hm
          rw [hr0] at hr'
          injection hr' with hr'
          rw [← hr', hk0] at h3
          exact Option.noConfusion h3
        | some k =>
          rw [settleDmap_some s rec k hk0]
          cases hlkk : s.dmap.lookup k with
          | none =>
            intro hm
            obtain ⟨r', hr', _, _, h3, _⟩ := h.dmapShape k' pid' c hm
            rw [hr0] at hr'
            injection hr' with hr'
            rw [← hr', hk0] at h3
            injection h3 with h3
            have hl3 := mem_lookup_of_nodup h.keysNodup hm
            rw [← h3, hlkk] at hl3
            exact Option.noConfusion hl3
          | some po =>
            dsimp only
            by_cases hae : rec.actual = some po.1
            · rw [if_pos hae]
              intro hm
              obtain ⟨r', hr', _, _, h3, _⟩ :=
                h.dmapShape k' pid' c (List.mem_of_mem_eraseP hm)
              rw [hr0] at hr'
              injection hr' with hr'
              rw [← hr', hk0] at h3
              injection h3 with h3
              rw [← h3] at hm
              exact notin_eraseP_self h.keysNodup k (pid', c) hm
            · rw [if_neg hae]
              intro hm
              obtain ⟨r', hr', _, _, h3, h4⟩ := h.dmapShape k' pid' c hm
              rw [hr0] at hr'
              injection hr' with hr'
              rw [← hr', hk0] at h3
              injection h3 with h3
              have hl3 := mem_lookup_of_nodup h.keysNodup hm
              rw [← h3, hlkk] at hl3
              injection hl3 with hl3
              rcases h4 with ⟨hr4, _⟩ | ⟨_, ha4⟩
              · rw [← hr'] at hr4
                rw [hreg] at hr4
                exact Bool.noConfusion hr4
              · rw [← hr'] at ha4
                apply hae
                rw [hl3]
                exact ha4
      · intro c' r k'' hc hr hj' hst' hk''
        obtain ⟨pid, hlk'⟩ := h.creatorEntry c' r k'' hr hj' hst' hk''
        cases hk0 : rec.key with
        | none =>
          rw [settleDmap_none s rec hk0]
          exact ⟨pid, hlk'⟩
        | some k =>
          rw [settleDmap_some s rec k hk0]
          cases hlkk : s.dmap.lookup k with
          | none => exact ⟨pid, hlk'⟩
          | some po =>
            dsimp only
            by_cases hae : rec.actual = some po.1
            · rw [if_pos hae]
              have hkk : k'' ≠ k := by
                intro he
                obtain ⟨pid0, hlk0⟩ := h.creatorEntry c rec k hr0 hj hset hk0
                rw [he, hlk0] at hlk'
                injection hlk' with hlk'
                exact hc (congrArg (fun q => q.2) hlk').symm
              refine ⟨pid, ?_⟩
              rw [lookup_eraseP_ne hkk]
              exact hlk'
            · rw [if_neg hae]
              exact ⟨pid, hlk'⟩

/-- Every step preserves the invariant. -/
theorem dinv_step (s : DState) (h : DInv s) (e : DEvent) : DInv (dstep s e) := by
  cases e with
  | start c key => exact dinv_start s h c key
  | register c => exact dinv_register s h c
  | settle c o => exact dinv_settle s h c o

/-- The state reached by any event trace satisfies the invariant. -/
theorem dinv_run (evs : List DEvent) : DInv (dedupeRun evs) := by
  have haux : ∀ (l : List DEvent) (s : DState), DInv s → DInv (l.foldl dstep s) := by
    intro l
    induction l with
    | nil => intro s hs; exact hs
    | cons e t ih =>
      intro s hs
      exact ih (dstep s e) (dinv_step s hs e)
  exact haux evs DState.init dinv_init

/-- Claim C4: for every interleaving of calls on one client, (a) the dedupe
map holds at most one live entry per key at any instant; (b) the transport
runs started are pairwise distinct calls; (c) a joiner (a call that found a
live entry for its key) never starts a transport run of its own; (d) a joiner
settles with exactly the outcome its owner settled with — the same response
or the same error. -/
theorem claim4_dedupe (evs : List DEvent) :
    ((dedupeRun evs).dmap.map (fun p => p.1)).Nodup ∧
    (dedupeRun evs).runs.Nodup ∧
    (∀ c rec, (dedupeRun evs).calls c = some rec → rec.isJoiner = true →
      c ∉ (dedupeRun evs).runs) ∧
    (∀ c c' rec rec' o, (dedupeRun evs).calls c' = some rec' →
      rec'.isJoiner = true → rec'.owner = c →
      (dedupeRun evs).calls c = some rec → rec.settled = true →
      rec.outcome = some o →
      (dedupeRun evs).pout rec'.joinedPid = some o) := by
  have h := dinv_run evs
  refine ⟨h.keysNodup, h.runsNodup, ?_, ?_⟩
  · intro c rec hc hjr hmem
    obtain ⟨r, hr, h1, _⟩ := (h.runsIff c).mp hmem
    rw [hc] at hr
    injection hr with hr
    rw [← hr, hjr] at h1
    exact Bool.noConfusion h1
  · intro c c' rec rec' o hc' hjr how hc hst ho
    obtain ⟨ro, hro, _, hdisj⟩ := h.joinerShape c' rec' hc' hjr
    rw [how, hc] at hro
    injection hro with hro
    have hout := h.settledOut c rec o hc hst ho
    rcases hdisj with hp | hp
    · rw [← hro] at hp
      exact hout.1 rec'.joinedPid hp
    · rw [← hro] at hp
      exact hout.2 rec'.joinedPid hp

/-- Witness for C4: two calls with key "k", the second joining while the
first is live; the first settles with a 200 response and the joiner's shared
promise carries that same response. -/
theorem claim4_dedupe_witness :
    (dedupeRun [DEvent.start 0 (some "k"), DEvent.register 0,
        DEvent.start 1 (some "k"),
        DEvent.settle 0 (Outcome.success ⟨200, "OK"⟩)]).pout 1 =
      some (Outcome.success ⟨200, "OK"⟩) :=
  (claim4_dedupe [DEvent.start 0 (some "k"), DEvent.register 0,
      DEvent.start 1 (some "k"),
      DEvent.settle 0 (Outcome.success ⟨200, "OK"⟩)]).2.2.2 0 1
    { key := some "k", isJoiner := false, joinedPid := 0, owner := 0,
      placeholder := some 0, actual := some 1, registered := true,
      settled := true, outcome := some (Outcome.success ⟨200, "OK"⟩) }
    { key := some "k", isJoiner := true, joinedPid := 1, owner := 0 }
    (Outcome.success ⟨200, "OK"⟩) rfl rfl rfl rfl rfl rfl

/-- Counterexample for C7: after call 0 starts and registers and call 1
joins it through the dedupe map, two top-level calls are in flight but
`pendingRequests` holds a single record — the joiner returned before the
pending-record push, so it never gets one. -/
theorem claim7_counterexample :
    (dedupeRun [DEvent.start 0 (some "k"), DEvent.register 0,
        DEvent.start 1 (some "k")]).pending.length = 1 ∧
    inFlightCount (dedupeRun [DEvent.start 0 (some "k"), DEvent.register 0,
        DEvent.start 1 (some "k")]) = 2 ∧
    callSettled (dedupeRun [DEvent.start 0 (some "k"), DEvent.register 0,
        DEvent.start 1 (some "k")]) 1 = false :=
  ⟨rfl, rfl, rfl⟩

/-- Claim C7 (amended): `pendingRequests` holds exactly one record per call
that has passed the hook pipeline (registered) and not yet settled; records
are unique; a dedupe joiner never has a record, even while in flight. -/
theorem claim7_pending (evs : List DEvent) (c : Nat) :
    (c ∈ (dedupeRun evs).pending ↔
      ∃ rec, (dedupeRun evs).calls c = some rec ∧ rec.registered = true ∧
        rec.settled = false) ∧
    (dedupeRun evs).pending.Nodup ∧
    (∀ rec, (dedupeRun evs).calls c = some rec → rec.isJoiner = true →
      c ∉ (dedupeRun evs).pending) := by
  have h := dinv_run evs
  refine ⟨h.pendingIff c, h.pendNodup, ?_⟩
  intro rec hc hjr hmem
  obtain ⟨r, hr, h1, _⟩ := (h.pendingIff c).mp hmem
  rw [hc] at hr
  injection hr with hr
  rw [← hr, (h.joinerIdle c rec hc hjr).1] at h1
  exact Bool.noConfusion h1

/-- Witness for C7 (amended): a registered, unsettled call has a pending
record. -/
theorem claim7_pending_witness :
    0 ∈ (dedupeRun [DEvent.start 0 (some "k"), DEvent.register 0]).pending :=
  ((claim7_pending [DEvent.start 0 (some "k"), DEvent.register 0] 0).1).mpr
    ⟨{ key := some "k", placeholder := some 0, actual := some 1,
       registered := true }, rfl, rfl, rfl⟩

/-- Claim C10: a call that joins an existing live dedupe entry runs none of
its own hooks, starts no transport attempt of its own, and its returned
promise is one of the owner's shared promises (placeholder or actual). -/
theorem claim10_joiner (evs : List DEvent) (c : Nat) (rec : CallRec)
    (hc : (dedupeRun evs).calls c = some rec) (hj : rec.isJoiner = true) :
    c ∉ (dedupeRun evs).hookRuns ∧ c ∉ (dedupeRun evs).runs ∧
    ∃ ro, (dedupeRun evs).calls rec.owner = some ro ∧ ro.isJoiner = false ∧
      (ro.placeholder = some rec.joinedPid ∨ ro.actual = some rec.joinedPid) := by
  have h := dinv_run evs
  refine ⟨?_, ?_, h.joinerShape c rec hc hj⟩
  · intro hmem
    obtain ⟨r, hr, h1, _⟩ := (h.hookIff c).mp hmem
    rw [hc] at hr
    injection hr with hr
    rw [← hr, hj] at h1
    exact Bool.noConfusion h1
  · intro hmem
    obtain ⟨r, hr, h1, _⟩ := (h.runsIff c).mp hmem
    rw [hc] at hr
    injection hr with hr
    rw [← hr, hj] at h1
    exact Bool.noConfusion h1

/-- Witness for C10: the joining call 1 of a concrete two-call trace runs no
hooks, no transport, and shares owner 0's promise. -/
theorem claim10_joiner_witness :
    1 ∉ (dedupeRun [DEvent.start 0 (some "k"), DEvent.register 0,
        DEvent.start 1 (some "k")]).hookRuns ∧
    1 ∉ (dedupeRun [DEvent.start 0 (some "k"), DEvent.register 0,
        DEvent.start 1 (some "k")]).runs ∧
    ∃ ro, (dedupeRun [DEvent.start 0 (some "k"), DEvent.register 0,
        DEvent.start 1 (some "k")]).calls 0 = some ro ∧
      ro.isJoiner = false ∧
      (ro.placeholder = some 1 ∨ ro.actual = some 1) :=
  claim10_joiner [DEvent.start 0 (some "k"), DEvent.register 0,
      DEvent.start 1 (some "k")] 1
    { key := some "k", isJoiner := true, joinedPid := 1, owner := 0 } rfl rfl


end FFetch
